import Mathlib

/-!
# sqlb: a shallow embedding of the SQL builder

The Go package builds a SQL statement as a tree of `Expresser` nodes, renders it
into a `bytes.Buffer` (`WriteTo`) and collects the bound values (`Builder.args`).

Representation choices of the embedding:

* an `Expresser` interface value is a tree; the constructor `nil` is the nil
  interface value. Expressions handed to the builder are values, so the embedding
  covers the programs in which no expression pointer is used in two places;
* the counters live in a store `Counters`, addressed by `CounterRef`, because an
  `argNode` keeps a pointer to the counter of the builder that made it;
* `Builder.last` always points into the tree below `Builder.first`, on its chain
  of `Right()` neighbours, so it is kept as the number of `Right()` steps from
  `first`;
* the buffer is kept as the sequence of writes it received; its text is the
  concatenation of the writes;
* a call on a nil interface value panics in Go; such calls return `none`.
-/

namespace Sqlb

/-- A bound value (`interface{}` in the source): the kinds the tests use. -/
inductive Value where
  | int (i : Int)
  | str (s : String)
  | map (m : List (String × Int))
deriving DecidableEq, Repr

/-- Text written to a buffer. -/
abbrev Text := String

/-! ## helpers.go -/

/-- The value of `x` as an `int64` (two's complement wrap-around). -/
def wrapInt64 (x : Int) : Int := (x + 2 ^ 63) % 2 ^ 64 - 2 ^ 63

/-- `type counter struct { index int64 }`. -/
structure counter where
  index : Int
deriving DecidableEq, Repr

/-- `func (c *counter) inc()`: `c.index++`. -/
def counter.inc (c : counter) : counter := { index := wrapInt64 (c.index + 1) }

/-- `func (c *counter) get() int64`: increments, then returns the index. -/
def counter.get (c : counter) : Int × counter := ((c.inc).index, c.inc)

/-- `func (c *counter) reset()`: `c.index = 0`. -/
def counter.reset (_c : counter) : counter := { index := 0 }

/-- The address of a counter. -/
abbrev CounterRef := Nat

/-- The counters allocated so far, by address. -/
abbrev Counters := CounterRef → counter

/-! ## Library functions used by the source -/

/-- `strconv.FormatInt(i, 10)`. -/
def FormatInt (i : Int) : Text :=
  if i < 0 then "-" ++ Nat.repr i.natAbs else Nat.repr i.toNat

/-- `unicode.IsSpace`: the characters with the Unicode White_Space property. -/
def IsSpace (c : Char) : Bool :=
  let n := c.toNat
  (9 ≤ n && n ≤ 13) || n == 32 || n == 0x85 || n == 0xA0 || n == 0x1680 ||
  (0x2000 ≤ n && n ≤ 0x200A) || n == 0x2028 || n == 0x2029 || n == 0x202F ||
  n == 0x205F || n == 0x3000

/-- `strings.TrimSpace`: removes all leading and trailing white space. -/
def TrimSpace (s : Text) : Text :=
  ⟨(s.data.dropWhile IsSpace).rdropWhile IsSpace⟩

/-- One write into the buffer: a literal string, or the token of an `argNode`
(`"$"` followed by the decimal index), recorded with the counter and the value of
the node that wrote it. -/
inductive Piece where
  | text (s : Text)
  | placeholder (index : Int) (counter : CounterRef) (arg : Value)
deriving DecidableEq, Repr

/-- The bytes of one write. -/
def Piece.toText : Piece → Text
  | .text s => s
  | .placeholder k _ _ => "$" ++ FormatInt k

/-- The content of a `bytes.Buffer`, as the writes that produced it. -/
abbrev Buffer := List Piece

/-- `func (b *Buffer) String() string`. -/
def Buffer.String : Buffer → Text
  | [] => ""
  | p :: ps => p.toText ++ Buffer.String ps

/-- `func (b *Buffer) Len() int`: the number of bytes. -/
def Buffer.Len (b : Buffer) : Nat := (Buffer.String b).utf8ByteSize

/-- `func (b *Buffer) WriteString(s string)`. -/
def Buffer.WriteString (b : Buffer) (s : Text) : Buffer := b ++ [Piece.text s]

/-! ## sqlb.go -/

/-- The `Expresser` interface with its four implementations `*node`, `*argNode`,
`*listNode`, `*namesNode` (each embeds `node`: `left`, `right`, `body`), and the
nil interface value. -/
inductive Expresser where
  | nil : Expresser
  | node (left right : Expresser) (body : Text)
  | argNode (left right : Expresser) (body : Text) (counter : CounterRef) (arg : Value)
  | listNode (left right : Expresser) (body : Text) (expressions : List Expresser)
  | namesNode (left right : Expresser) (body : Text) (names : List Text)
deriving Repr

/-- The test `e != nil`. -/
def Expresser.isNil : Expresser → Bool
  | .nil => true
  | _ => false

/-- `Left()`; a call on the nil interface panics. -/
def Expresser.Left : Expresser → Option Expresser
  | .nil => none
  | .node l _ _ => some l
  | .argNode l _ _ _ _ => some l
  | .listNode l _ _ _ => some l
  | .namesNode l _ _ _ => some l

/-- `Right()`; a call on the nil interface panics. -/
def Expresser.Right : Expresser → Option Expresser
  | .nil => none
  | .node _ r _ => some r
  | .argNode _ r _ _ _ => some r
  | .listNode _ r _ _ => some r
  | .namesNode _ r _ _ => some r

/-- `SetRight(e)`; a call on the nil interface panics. -/
def Expresser.SetRight : Expresser → Expresser → Option Expresser
  | .nil, _ => none
  | .node l _ b, e => some (.node l e b)
  | .argNode l _ b c a, e => some (.argNode l e b c a)
  | .listNode l _ b es, e => some (.listNode l e b es)
  | .namesNode l _ b ns, e => some (.namesNode l e b ns)

/-- The loop of `namesNode.WriteTo`:
`for i, n := range nn.names { if i > 0 { b.WriteString(nn.body) }; b.WriteString(n) }`. -/
def writeNames (body : Text) : List Text → Nat → Buffer → Buffer
  | [], _, b => b
  | n :: ns, i, b =>
    let b := if i > 0 then Buffer.WriteString b body else b
    writeNames body ns (i + 1) (Buffer.WriteString b n)

mutual
/-- `WriteTo` of `*node`, `*argNode`, `*listNode` and `*namesNode`. -/
def Expresser.WriteTo : Expresser → Buffer → Counters → Option (Buffer × Counters)
  | .nil, _, _ => none
  | .node left right body, b, σ =>
    match (if left.isNil then some (b, σ) else left.WriteTo b σ) with
    | none => none
    | some (b, σ) =>
      let b := Buffer.WriteString b body
      if right.isNil then some (b, σ) else right.WriteTo b σ
  | .argNode _ _ _ counter arg, b, σ =>
    let (k, c) := (σ counter).get
    some (b ++ [Piece.placeholder k counter arg], Function.update σ counter c)
  | .listNode left right body expressions, b, σ =>
    match (if left.isNil then some (b, σ) else left.WriteTo b σ) with
    | none => none
    | some (b, σ) =>
      match writeExpressions body expressions 0 b σ with
      | none => none
      | some (b, σ) => if right.isNil then some (b, σ) else right.WriteTo b σ
  | .namesNode left right body names, b, σ =>
    match (if left.isNil then some (b, σ) else left.WriteTo b σ) with
    | none => none
    | some (b, σ) =>
      let b := writeNames body names 0 b
      if right.isNil then some (b, σ) else right.WriteTo b σ
/-- The loop of `listNode.WriteTo`:
`for i, e := range ln.expressions { if i > 0 { b.WriteString(ln.body) }; e.WriteTo(b) }`. -/
def writeExpressions (body : Text) :
    List Expresser → Nat → Buffer → Counters → Option (Buffer × Counters)
  | [], _, b, σ => some (b, σ)
  | e :: es, i, b, σ =>
    match e.WriteTo (if i > 0 then Buffer.WriteString b body else b) σ with
    | none => none
    | some (b, σ) => writeExpressions body es (i + 1) b σ
end

/-- `func Name(s string) Expresser`. -/
def Name (s : Text) : Expresser := .node .nil .nil s

/-- `func Is(left, right Expresser) Expresser`. -/
def Is (left right : Expresser) : Expresser := .node left right " IS "

/-- `func NotNull() Expresser`. -/
def NotNull : Expresser := .node .nil .nil " NOT NULL "

/-- `func Equal(left, right Expresser) Expresser`. -/
def Equal (left right : Expresser) : Expresser := .node left right " = "

/-- `func Contains(left, right Expresser) Expresser`. -/
def Contains (left right : Expresser) : Expresser := .node left right " @> "

/-- `func IsContainedBy(left, right Expresser) Expresser`. -/
def IsContainedBy (left right : Expresser) : Expresser := .node left right " <@ "

/-- `func In(left, right Expresser) Expresser`. -/
def In (left right : Expresser) : Expresser := .node left right " IN "

/-- `func As(left Expresser, right string) Expresser`. -/
def As (left : Expresser) (right : Text) : Expresser :=
  .node left (.node .nil .nil right) " AS "

/-- `func HasKey(left, right Expresser) Expresser`. -/
def HasKey (left right : Expresser) : Expresser := .node left right " ? "

/-- `func And(exprs ...Expresser) Expresser`. -/
def And (exprs : List Expresser) : Expresser :=
  .listNode (.node .nil .nil " (") (.node .nil .nil ") ") " AND " exprs

/-- `func Or(exprs ...Expresser) Expresser`. -/
def Or (exprs : List Expresser) : Expresser :=
  .listNode (.node .nil .nil " (") (.node .nil .nil ") ") " OR " exprs

/-- `func List(exprs ...Expresser) Expresser`. -/
def ListOf (exprs : List Expresser) : Expresser := .listNode .nil .nil ", " exprs

/-- `func Names(names ...string) Expresser`. -/
def Names (names : List Text) : Expresser := .namesNode .nil .nil "" names

/-! ## builder.go -/

/-- `type Builder struct { first, last Expresser; counter *counter; buffer *bytes.Buffer }`.
`last` is the number of `Right()` steps that lead from `first` to the cursor. -/
structure Builder where
  first : Expresser
  last : Nat
  counter : CounterRef
  buffer : Buffer
deriving Repr

/-- The node reached from `e` by `k` steps of `Right()`; nil when there is none. -/
def nodeAt : Nat → Expresser → Expresser
  | 0, e => e
  | k + 1, e =>
    match e.Right with
    | none => .nil
    | some r => nodeAt k r

/-- `SetRight(x)` called on the node reached from `e` by `k` steps of `Right()`. -/
def setRightAt : Nat → Expresser → Expresser → Option Expresser
  | 0, e, x => e.SetRight x
  | k + 1, e, x =>
    match e.Right with
    | none => none
    | some r =>
      match setRightAt k r x with
      | none => none
      | some r => e.SetRight r

/-- The value of the field `last`. -/
def Builder.lastNode (b : Builder) : Expresser := nodeAt b.last b.first

/-- `func New() *Builder`; `r` is the address of the counter it allocates. -/
def New (r : CounterRef) (σ : Counters) : Builder × Counters :=
  ({ first := .nil, last := 0, counter := r, buffer := [] }, Function.update σ r { index := 0 })

/-- `func (b *Builder) add(left, right Expresser)`: `b.last.SetRight(left); b.last = right`,
where `right` is the node `steps` steps of `Right()` below `left`. -/
def Builder.add (b : Builder) (left : Expresser) (steps : Nat) : Option Builder :=
  match setRightAt b.last b.first left with
  | none => none
  | some first => some { b with first := first, last := b.last + 1 + steps }

/-- `func (b *Builder) Reset()`. -/
def Builder.Reset (b : Builder) (σ : Counters) : Builder × Counters :=
  ({ b with buffer := [] }, Function.update σ b.counter (σ b.counter).reset)

/-- `func (b *Builder) Insert() *Builder`. -/
def Builder.Insert (b : Builder) : Builder :=
  { b with first := .node .nil .nil " INSERT ", last := 0 }

/-- `func (b *Builder) Into(s string) *Builder`: `b.add(i, i.right)`. -/
def Builder.Into (b : Builder) (s : Text) : Option Builder :=
  b.add (.node .nil (.node .nil .nil s) " INTO ") 1

/-- `func (b *Builder) Columns(cols ...string) *Builder`: `b.add(nn, nn.right)`. -/
def Builder.Columns (b : Builder) (cols : List Text) : Option Builder :=
  b.add (.namesNode (.node .nil .nil " (") (.node .nil .nil ") ") ", " cols) 1

/-- `func (b *Builder) Values(args ...interface{}) *Builder`:
`b.add(ln, ln.right.Right())`. -/
def Builder.Values (b : Builder) (args : List Value) : Option Builder :=
  b.add (.listNode (.node .nil .nil " VALUES(") (.node .nil .nil ") ") ", "
    (args.map fun a => .argNode .nil .nil "" b.counter a)) 2

/-- `func (b *Builder) Select(expr Expresser) *Builder`. -/
def Builder.Select (b : Builder) (expr : Expresser) : Builder :=
  { b with first := .node .nil expr " SELECT ", last := 1 }

/-- `func (b *Builder) From(expr Expresser) *Builder`. -/
def Builder.From (b : Builder) (expr : Expresser) : Option Builder :=
  b.add (.node .nil expr " FROM ") 1

/-- `func (b *Builder) Where(expr Expresser) *Builder`. -/
def Builder.Where (b : Builder) (expr : Expresser) : Option Builder :=
  b.add (.node .nil expr " WHERE ") 1

/-- `func (b *Builder) Limit(l int64) *Builder`. -/
def Builder.Limit (b : Builder) (l : Int) : Option Builder :=
  b.add (.node .nil (.argNode .nil .nil "" b.counter (.int l)) " LIMIT ") 1

/-- `func (b *Builder) Offset(o int64) *Builder`. -/
def Builder.Offset (b : Builder) (o : Int) : Option Builder :=
  b.add (.node .nil (.argNode .nil .nil "" b.counter (.int o)) " OFFSET ") 1

/-- `func (b *Builder) GroupBy(names ...string) *Builder`. -/
def Builder.GroupBy (b : Builder) (names : List Text) : Option Builder :=
  b.add (.node .nil (.namesNode .nil .nil "" names) " GROUP BY ") 1

/-- `func (b *Builder) Having(expr Expresser) *Builder`. -/
def Builder.Having (b : Builder) (expr : Expresser) : Option Builder :=
  b.add (.node .nil expr " HAVING ") 1

/-- `func (b *Builder) OrderBy(names ...string) *Builder`. -/
def Builder.OrderBy (b : Builder) (names : List Text) : Option Builder :=
  b.add (.node .nil (.namesNode .nil .nil "" names) " ORDER BY ") 1

/-- `func (b *Builder) Distinct() *Builder`. -/
def Builder.Distinct (b : Builder) : Option Builder :=
  b.add (.node .nil .nil " DISTINCT ") 0

/-- `func (b *Builder) Arg(arg interface{}) Expresser`. -/
def Builder.Arg (b : Builder) (arg : Value) : Expresser :=
  .argNode .nil .nil "" b.counter arg

/-- `func (b *Builder) Expr() Expresser`. -/
def Builder.Expr (b : Builder) : Expresser := b.first

mutual
/-- `func (b *Builder) args(expr Expresser, args []interface{}) []interface{}`. -/
def Builder.args : Expresser → List Value → Option (List Value)
  | .nil, _ => none
  | .node left right _, args =>
    match (if left.isNil then some args else Builder.args left args) with
    | none => none
    | some args => if right.isNil then some args else Builder.args right args
  | .argNode left right _ _ arg, args =>
    match (if left.isNil then some args else Builder.args left args) with
    | none => none
    | some args =>
      let args := args ++ [arg]
      if right.isNil then some args else Builder.args right args
  | .listNode left right _ expressions, args =>
    match (if left.isNil then some args else Builder.args left args) with
    | none => none
    | some args =>
      match argsExpressions expressions args with
      | none => none
      | some args => if right.isNil then some args else Builder.args right args
  | .namesNode left right _ _, args =>
    match (if left.isNil then some args else Builder.args left args) with
    | none => none
    | some args => if right.isNil then some args else Builder.args right args
/-- The loop `for _, e := range et.expressions { args = b.args(e, args) }`. -/
def argsExpressions : List Expresser → List Value → Option (List Value)
  | [], args => some args
  | e :: es, args =>
    match Builder.args e args with
    | none => none
    | some args => argsExpressions es args
end

/-- The largest capacity that `make([]interface{}, 0, n)` accepts in the Go runtime:
`makeslice` panics (`cap out of range`) when `n` is negative or when `16 * n` bytes exceed
`maxAlloc`, which is `2^48` bytes on the 64-bit platforms with 48 address bits; so the
largest capacity is `2^44`. Running out of memory below that limit is not modelled. -/
def maxSliceCap : Int := 17592186044416

/-- `func (b *Builder) Args() []interface{}`:
`args := make([]interface{}, 0, b.counter.index)`, which panics when the index of the counter
is negative or larger than the largest capacity, then `return b.args(b.first, args)`; the
builder and the counters are returned as the call leaves them. -/
def Builder.Args (b : Builder) (σ : Counters) : Option (List Value) × Builder × Counters :=
  (if (σ b.counter).index < 0 ∨ maxSliceCap < (σ b.counter).index then none
    else Builder.args b.first [], b, σ)

/-- `func (b *Builder) String() string`; the text, and the builder and the counters
as the call leaves them. -/
def Builder.String (b : Builder) (σ : Counters) : Option (Text × Builder × Counters) :=
  if Buffer.Len b.buffer = 0 then
    match b.first.WriteTo b.buffer σ with
    | none => none
    | some (buf, σ) => some (TrimSpace (Buffer.String buf), { b with buffer := buf }, σ)
  else
    some (TrimSpace (Buffer.String b.buffer), b, σ)

/-- The counters before any builder exists. -/
def noCounters : Counters := fun _ => { index := 0 }

/-! ## Vocabulary of the statements -/

/-- A placeholder token found in a buffer: the number written after `$`, the counter
it was drawn from and the value of the `argNode` that wrote it. -/
structure Token where
  index : Int
  counter : CounterRef
  arg : Value
deriving DecidableEq, Repr

/-- The placeholder tokens of a buffer, in the order they were written. -/
def Buffer.placeholders : Buffer → List Token
  | [] => []
  | .text _ :: ps => Buffer.placeholders ps
  | .placeholder k c a :: ps => { index := k, counter := c, arg := a } :: Buffer.placeholders ps

/-- Rendering of a child position (`if n.left != nil { n.left.WriteTo(b) }`). -/
def writeChild (e : Expresser) (b : Buffer) (σ : Counters) : Option (Buffer × Counters) :=
  if e.isNil then some (b, σ) else e.WriteTo b σ

/-- A result with `b` put in front of its buffer. -/
def onto (b : Buffer) (p : Buffer × Counters) : Buffer × Counters := (b ++ p.1, p.2)

/-- `New().Select(Name("*")).Limit(7).Offset(8)`, then `String()`, then `Args()`: the text,
the tokens in the buffer and the collected values. -/
def limitOffsetProgram : Option (Text × List Token × Option (List Value)) :=
  let (b, σ) := New 0 noCounters
  match (b.Select (Name "*")).Limit 7 with
  | none => none
  | some b =>
    match b.Offset 8 with
    | none => none
    | some b =>
      match b.String σ with
      | none => none
      | some (s, b, σ) => some (s, Buffer.placeholders b.buffer, (b.Args σ).1)

/-- Every string of `xs` with `sep` written before it. -/
def prefixed (sep : Text) : List Text → Text
  | [] => ""
  | x :: xs => sep ++ x ++ prefixed sep xs

/-- The tokens `$(c+1)`, ..., `$(c+n)`. -/
def dollars (c : Int) : Nat → List Text
  | 0 => []
  | n + 1 => ("$" ++ FormatInt (c + 1)) :: dollars (c + 1) n

/-- The `argNode`s made by `Values` and by `Arg` for the values `vs` on the counter `r`. -/
def argNodes (r : CounterRef) (vs : List Value) : List Expresser :=
  vs.map fun a => .argNode .nil .nil "" r a

/-- The comparison constructors `Equal`, `Contains`, `IsContainedBy` and `HasKey`. -/
inductive Comparison where
  | Equal
  | Contains
  | IsContainedBy
  | HasKey
deriving DecidableEq, Repr

/-- The expression the constructor builds. -/
def Comparison.build : Comparison → Expresser → Expresser → Expresser
  | .Equal, l, r => Sqlb.Equal l r
  | .Contains, l, r => Sqlb.Contains l r
  | .IsContainedBy, l, r => Sqlb.IsContainedBy l r
  | .HasKey, l, r => Sqlb.HasKey l r

/-- The operator text expected of the constructor. -/
def Comparison.text : Comparison → Text
  | .Equal => " = "
  | .Contains => " @> "
  | .IsContainedBy => " <@ "
  | .HasKey => " ? "

/-- A conjunct of the `Where` clause: `Op(Name(c), b.Arg(v))` or `Is(Name(c), NotNull())`. -/
inductive Conjunct where
  | compare (op : Comparison) (c : Text) (v : Value)
  | isNotNull (c : Text)
deriving DecidableEq, Repr

/-- The expression of a conjunct, its placeholder made by `b.Arg`. -/
def Conjunct.expr (b : Builder) : Conjunct → Expresser
  | .compare op c v => op.build (Name c) (b.Arg v)
  | .isNotNull c => Is (Name c) NotNull

/-- The values of the placeholder-bearing conjuncts, in order. -/
def conjunctArgs : List Conjunct → List Value
  | [] => []
  | .compare _ _ v :: cs => v :: conjunctArgs cs
  | .isNotNull _ :: cs => conjunctArgs cs

/-- The texts expected of the conjuncts when `k` placeholders came before them. -/
def conjunctTexts : Nat → List Conjunct → List Text
  | _, [] => []
  | k, .compare op c _ :: cs =>
    (c ++ op.text ++ "$" ++ Nat.repr (k + 1)) :: conjunctTexts (k + 1) cs
  | k, .isNotNull c :: cs => (c ++ " IS  NOT NULL ") :: conjunctTexts k cs

/-- The root was established by `Select` or by `Insert`: `first` is the node one of them
made (its `right` may have been set by later clauses). -/
def Builder.rooted (b : Builder) : Prop :=
  ∃ right, b.first = .node .nil right " SELECT " ∨ b.first = .node .nil right " INSERT "

/-- The operations that change the tree: the two that set the root and the clause
operations, with their arguments. -/
inductive Mutation where
  | Insert
  | Select (expr : Expresser)
  | Into (s : Text)
  | Columns (cols : List Text)
  | Values (args : List Value)
  | From (expr : Expresser)
  | Where (expr : Expresser)
  | Limit (l : Int)
  | Offset (o : Int)
  | GroupBy (names : List Text)
  | Having (expr : Expresser)
  | OrderBy (names : List Text)
  | Distinct

/-- The call of the operation on the builder. -/
def Builder.apply (b : Builder) : Mutation → Option Builder
  | .Insert => some b.Insert
  | .Select expr => some (b.Select expr)
  | .Into s => b.Into s
  | .Columns cols => b.Columns cols
  | .Values args => b.Values args
  | .From expr => b.From expr
  | .Where expr => b.Where expr
  | .Limit l => b.Limit l
  | .Offset o => b.Offset o
  | .GroupBy names => b.GroupBy names
  | .Having expr => b.Having expr
  | .OrderBy names => b.OrderBy names
  | .Distinct => b.Distinct

/-- `New().Select(Name("*"))`. -/
def selectStar : Builder := (New 0 noCounters).1.Select (Name "*")

/-- `b := New(); b.Select(b.Arg(5))`. -/
def selectArg : Builder := (New 0 noCounters).1.Select ((New 0 noCounters).1.Arg (.int 5))

/-- The numbers of the tokens of a buffer that were drawn from the counter `r`, in the
order they were written. -/
def Buffer.indicesOf (r : CounterRef) (b : Buffer) : List Int :=
  ((Buffer.placeholders b).filter fun t => t.counter = r).map Token.index

mutual
/-- Every `argNode` of the expression was made on the counter `r` (by `Arg`, `Values`,
`Limit` or `Offset` of the builder that owns `r`). -/
def Expresser.argsFrom (r : CounterRef) : Expresser → Bool
  | .nil => true
  | .node left right _ => left.argsFrom r && right.argsFrom r
  | .argNode left right _ counter _ => decide (counter = r) && left.argsFrom r && right.argsFrom r
  | .listNode left right _ expressions =>
    left.argsFrom r && right.argsFrom r && allArgsFrom r expressions
  | .namesNode left right _ _ => left.argsFrom r && right.argsFrom r
/-- Every `argNode` of the expressions was made on the counter `r`. -/
def allArgsFrom (r : CounterRef) : List Expresser → Bool
  | [] => true
  | e :: es => e.argsFrom r && allArgsFrom r es
end

/-- The effect of a render on the counter `r`: untouched when no token is drawn from it;
otherwise, within the range of the counter, its tokens are numbered on from its value. -/
def drawsFrom (r : CounterRef) (out : Buffer) (σ σ' : Counters) : Prop :=
  (Buffer.indicesOf r out = [] → σ' r = σ r) ∧
  (-2 ^ 63 ≤ (σ r).index → (σ r).index + (Buffer.indicesOf r out).length < 2 ^ 63 →
    (σ' r).index = (σ r).index + (Buffer.indicesOf r out).length ∧
    Buffer.indicesOf r out =
      (List.range (Buffer.indicesOf r out).length).map
        (fun (j : Nat) => (σ r).index + 1 + (j : Int)))

/-- The statement of `BenchmarkBuilder_Select_simple`:
`b.Select(Name("id")).From(Name("tickets")).Where(And(Equal(Name("subdomain_id"), b.Arg(1)),
Or(Equal(Name("state"), b.Arg("open")), Equal(Name("state"), b.Arg("spam")))))`. -/
def selectSimple : Builder :=
  let b := (New 0 noCounters).1
  match (b.Select (Name "id")).From (Name "tickets") with
  | none => b
  | some b1 =>
    match b1.Where (And [Equal (Name "subdomain_id") (b.Arg (.int 1)),
        Or [Equal (Name "state") (b.Arg (.str "open")),
          Equal (Name "state") (b.Arg (.str "spam"))]]) with
    | none => b
    | some b2 => b2

/-- The counters after `bb := New()` (counter 0) and `bbs := New()` (counter 1). -/
def twoCounters : Counters := (New 1 (New 0 noCounters).2).2

/-- The subquery of `BenchmarkBuilder_Select_subquery`, its placeholders made by the inner
builder `bbs` itself. -/
def innerQuery : Builder :=
  let b := (New 1 (New 0 noCounters).2).1
  match (b.Select (Name "id")).From (Name "tickets") with
  | none => b
  | some b1 =>
    match b1.Where (And [Equal (Name "subdomain_id") (b.Arg (.int 1)),
        Or [Equal (Name "state") (b.Arg (.str "open")),
          Equal (Name "state") (b.Arg (.str "spam"))]]) with
    | none => b
    | some b2 => b2

/-- The clauses that follow `Select` in the outer statement of
`BenchmarkBuilder_Select_subquery`. -/
def outerClauses (b : Builder) : Option Builder :=
  (((((b.From (Name "c")).bind fun b => b.Distinct).bind fun b =>
    b.Where (And [Equal (Name "f") (b.Arg (.int 2)), Equal (Name "x") (b.Arg (.str "hi")),
      Equal (Name "g") (b.Arg (.int 3))])).bind fun b =>
    b.OrderBy ["l", "l"]).bind fun b => b.Limit 7).bind fun b => b.Offset 8

/-- The outer statement of `BenchmarkBuilder_Select_subquery`:
`bb.Select(List(Name("a"), Name("b"), As(bbs.Expr(), "subq")))` and its later clauses. -/
def outerQuery : Builder :=
  let b := (New 0 noCounters).1
  match outerClauses (b.Select (ListOf [Name "a", Name "b", As innerQuery.Expr "subq"])) with
  | none => b
  | some b1 => b1

/-- The right neighbour of the select list of the outer statement: its later clauses. -/
def outerRest : Expresser :=
  match outerQuery.first with
  | .node _ (.listNode _ rest _ _) _ => rest
  | _ => .nil

/-- The result of the last of `k + 1` consecutive calls of `get`, and the counter after it. -/
def counter.nthGet (c : counter) : Nat → Int × counter
  | 0 => c.get
  | k + 1 => (c.get.2).nthGet k

/-- The raw text written by rendering the root into an empty buffer. -/
def rawText (b : Builder) (σ : Counters) : Option Text :=
  (b.first.WriteTo [] σ).map fun p => Buffer.String p.1

/-- `New().Select(Name("*")).OrderBy("l", "l").Limit(7).Offset(8)`. -/
def orderLimitOffset : Option Builder :=
  ((((New 0 noCounters).1.Select (Name "*")).OrderBy ["l", "l"]).bind fun b =>
    b.Limit 7).bind fun b => b.Offset 8

/-- `New().Select(Name("*")).GroupBy("i", "ii", "iii")`. -/
def groupByThree : Option Builder :=
  ((New 0 noCounters).1.Select (Name "*")).GroupBy ["i", "ii", "iii"]

/-- `New().Insert().Into("user").Values(1)`. -/
def insertValues : Option Builder :=
  ((New 0 noCounters).1.Insert.Into "user").bind fun b => b.Values [.int 1]

/-- `b.Select(Name("id")).From(Name("tickets")).Where(And(Equal(Name("state"), b.Arg("open"))))`
on a fresh builder. -/
def whereAnd : Option Builder :=
  (((New 0 noCounters).1.Select (Name "id")).From (Name "tickets")).bind fun b =>
    b.Where (And [Equal (Name "state") (b.Arg (.str "open"))])

/-- `b.Select(Name("id")).From(Name("tickets")).Where(Equal(Name("state"), b.Arg("open")))`
on a fresh builder. -/
def whereEqual : Option Builder :=
  (((New 0 noCounters).1.Select (Name "id")).From (Name "tickets")).bind fun b =>
    b.Where (Equal (Name "state") (b.Arg (.str "open")))

/-- `New().Insert().Into("user")`. -/
def insertInto : Option Builder := (New 0 noCounters).1.Insert.Into "user"

mutual
/-- The reference rendering, written after the words of the specification: a text node
gives render(left) + body + render(right), an absent child giving the empty string; a list
node gives render(left wrapper) + the renderings of its elements, in order, with the
separator between consecutive elements + render(right wrapper); a name-list node gives the
same with the raw names for the element renderings; a placeholder node gives `$` + the
decimal of the counter's next value; the counters are threaded from left to right. -/
def renderSpec : Expresser → Counters → Option (Text × Counters)
  | .nil, _ => none
  | .node left right body, σ =>
    match (if left.isNil then some ("", σ) else renderSpec left σ) with
    | none => none
    | some (a, σ) =>
      match (if right.isNil then some ("", σ) else renderSpec right σ) with
      | none => none
      | some (c, σ) => some (a ++ body ++ c, σ)
  | .argNode _ _ _ counter _, σ =>
    some ("$" ++ FormatInt ((σ counter).get).1, Function.update σ counter ((σ counter).get).2)
  | .listNode left right body expressions, σ =>
    match (if left.isNil then some ("", σ) else renderSpec left σ) with
    | none => none
    | some (a, σ) =>
      match renderSpecAll expressions σ with
      | none => none
      | some (ts, σ) =>
        match (if right.isNil then some ("", σ) else renderSpec right σ) with
        | none => none
        | some (c, σ) => some (a ++ body.intercalate ts ++ c, σ)
  | .namesNode left right body names, σ =>
    match (if left.isNil then some ("", σ) else renderSpec left σ) with
    | none => none
    | some (a, σ) =>
      match (if right.isNil then some ("", σ) else renderSpec right σ) with
      | none => none
      | some (c, σ) => some (a ++ body.intercalate names ++ c, σ)
/-- The reference renderings of the elements of a list node, in order. -/
def renderSpecAll : List Expresser → Counters → Option (List Text × Counters)
  | [], σ => some ([], σ)
  | e :: es, σ =>
    match renderSpec e σ with
    | none => none
    | some (t, σ) =>
      match renderSpecAll es σ with
      | none => none
      | some (ts, σ) => some (t :: ts, σ)
end

/-- The reference rendering of a child position: an absent child gives the empty string. -/
def renderSpecChild (e : Expresser) (σ : Counters) : Option (Text × Counters) :=
  if e.isNil then some ("", σ) else renderSpec e σ

/-- The text of a buffer, with the counters. -/
def textOf (p : Buffer × Counters) : Text × Counters := (Buffer.String p.1, p.2)

/-- The text the loop of a list node gives for the element texts `ts`, entered at index `i`. -/
def loopText (body : Text) (i : Nat) (p : List Text × Counters) : Text × Counters :=
  (if i > 0 then prefixed body p.1 else body.intercalate p.1, p.2)

mutual
/-- A finite tree of text, name-list, list and placeholder nodes in which every placeholder
node was made on the counter `r` and has no left or right child; a left or right child of
another node may be absent, a list element may not. -/
def Expresser.plain (r : CounterRef) : Expresser → Bool
  | .nil => false
  | .node left right _ => (left.isNil || left.plain r) && (right.isNil || right.plain r)
  | .argNode left right _ counter _ => left.isNil && right.isNil && decide (counter = r)
  | .listNode left right _ expressions =>
    (left.isNil || left.plain r) && (right.isNil || right.plain r) && allPlain r expressions
  | .namesNode left right _ _ => (left.isNil || left.plain r) && (right.isNil || right.plain r)
/-- Every element of the list is such a tree. -/
def allPlain (r : CounterRef) : List Expresser → Bool
  | [] => true
  | e :: es => e.plain r && allPlain r es
end

/-- Argument collection at a child position (`if expr.Left() != nil { ... }`). -/
def argsChild (e : Expresser) (args : List Value) : Option (List Value) :=
  if e.isNil then some args else Builder.args e args

/-- The tree of `BenchmarkBuilder_Select_simple`, a list inside a list. -/
def nestedLists : Expresser :=
  .node .nil (And [Equal (Name "subdomain_id") (.argNode .nil .nil "" 0 (.int 1)),
    Or [Equal (Name "state") (.argNode .nil .nil "" 0 (.str "open")),
      Equal (Name "state") (.argNode .nil .nil "" 0 (.str "spam"))]]) " WHERE "

/-- The counters when every counter holds `c`. -/
def countersAt (c : Int) : Counters := fun _ => { index := c }

/-! ## Theorems -/

/-- C1 (fails on the code): for `New().Select(Name("*")).Limit(7).Offset(8)` the render
`String()` returns `SELECT * LIMIT $1`, with the single placeholder token `$1`, while
`Args()` returns the two values `[7, 8]`: `Offset` hangs its subtree under the `argNode`
made by `Limit`, `Builder.args` visits the children of an `argNode`, `argNode.WriteTo`
does not write them. -/
theorem C1_offset_after_limit_collected_not_rendered :
    limitOffsetProgram =
      some ("SELECT * LIMIT $1", [{ index := 1, counter := 0, arg := .int 7 }],
        some [.int 7, .int 8]) ∧
    ∃ s toks vals, limitOffsetProgram = some (s, toks, some vals) ∧
      toks.length ≠ vals.length := by
  refine ⟨by decide, "SELECT * LIMIT $1", [{ index := 1, counter := 0, arg := .int 7 }],
    [.int 7, .int 8], by decide, by decide⟩

/-! ### Rendering into a non-empty buffer -/

theorem WriteTo_node (l r : Expresser) (body : Text) (b : Buffer) (σ : Counters) :
    (Expresser.node l r body).WriteTo b σ =
      (writeChild l b σ).bind fun p => writeChild r (p.1 ++ [Piece.text body]) p.2 := by
  simp only [Expresser.WriteTo, writeChild, Buffer.WriteString]
  cases h : (if l.isNil then some (b, σ) else l.WriteTo b σ) <;> simp

theorem WriteTo_listNode (l r : Expresser) (body : Text) (es : List Expresser) (b : Buffer)
    (σ : Counters) :
    (Expresser.listNode l r body es).WriteTo b σ =
      (writeChild l b σ).bind fun p =>
        (writeExpressions body es 0 p.1 p.2).bind fun q => writeChild r q.1 q.2 := by
  simp only [Expresser.WriteTo, writeChild]
  cases h : (if l.isNil then some (b, σ) else l.WriteTo b σ) with
  | none => simp
  | some p =>
    simp only [Option.some_bind]
    cases h2 : writeExpressions body es 0 p.1 p.2 <;> simp

theorem WriteTo_namesNode (l r : Expresser) (body : Text) (ns : List Text) (b : Buffer)
    (σ : Counters) :
    (Expresser.namesNode l r body ns).WriteTo b σ =
      (writeChild l b σ).bind fun p => writeChild r (writeNames body ns 0 p.1) p.2 := by
  simp only [Expresser.WriteTo, writeChild]
  cases h : (if l.isNil then some (b, σ) else l.WriteTo b σ) <;> simp

theorem WriteTo_argNode (l r : Expresser) (body : Text) (c : CounterRef) (a : Value)
    (b : Buffer) (σ : Counters) :
    (Expresser.argNode l r body c a).WriteTo b σ =
      some (b ++ [Piece.placeholder ((σ c).inc).index c a], Function.update σ c (σ c).inc) := by
  simp [Expresser.WriteTo, counter.get]

theorem writeExpressions_cons (body : Text) (e : Expresser) (es : List Expresser) (i : Nat)
    (b : Buffer) (σ : Counters) :
    writeExpressions body (e :: es) i b σ =
      (e.WriteTo (if i > 0 then b ++ [Piece.text body] else b) σ).bind fun p =>
        writeExpressions body es (i + 1) p.1 p.2 := by
  simp only [writeExpressions, Buffer.WriteString]
  cases h : e.WriteTo (if i > 0 then b ++ [Piece.text body] else b) σ <;> simp

theorem writeNames_buffer (body : Text) (ns : List Text) (i : Nat) (b : Buffer) :
    writeNames body ns i b = b ++ writeNames body ns i [] := by
  induction ns generalizing i b with
  | nil => simp [writeNames]
  | cons n ns ih =>
    simp only [writeNames, Buffer.WriteString]
    rw [ih, ih (i + 1) ((if i > 0 then [] ++ [Piece.text body] else []) ++ [Piece.text n])]
    split <;> simp


mutual
theorem WriteTo_buffer (e : Expresser) (b : Buffer) (σ : Counters) :
    e.WriteTo b σ = (e.WriteTo [] σ).map (onto b) := by
  match e with
  | .nil => simp [Expresser.WriteTo]
  | .node l r body =>
    rw [WriteTo_node, WriteTo_node, writeChild_buffer l b σ]
    cases h : writeChild l [] σ with
    | none => simp
    | some p =>
      simp only [Option.map_some', Option.some_bind, onto]
      rw [writeChild_buffer r, writeChild_buffer r (p.1 ++ _)]
      cases h2 : writeChild r [] p.2 <;> simp [onto]
  | .argNode l r body c a => simp [WriteTo_argNode, onto]
  | .listNode l r body es =>
    rw [WriteTo_listNode, WriteTo_listNode, writeChild_buffer l b σ]
    cases h : writeChild l [] σ with
    | none => simp
    | some p =>
      simp only [Option.map_some', Option.some_bind, onto]
      rw [writeExpressions_buffer body es 0, writeExpressions_buffer body es 0 p.1]
      cases h2 : writeExpressions body es 0 [] p.2 with
      | none => simp
      | some q =>
        simp only [Option.map_some', Option.some_bind, onto]
        rw [writeChild_buffer r, writeChild_buffer r (p.1 ++ q.1)]
        cases h3 : writeChild r [] q.2 <;> simp [onto]
  | .namesNode l r body ns =>
    rw [WriteTo_namesNode, WriteTo_namesNode, writeChild_buffer l b σ]
    cases h : writeChild l [] σ with
    | none => simp
    | some p =>
      simp only [Option.map_some', Option.some_bind, onto]
      rw [writeChild_buffer r, writeChild_buffer r (writeNames _ _ _ p.1)]
      rw [writeNames_buffer body ns 0 (b ++ p.1), writeNames_buffer body ns 0 p.1]
      cases h2 : writeChild r [] p.2 <;> simp [onto]
theorem writeChild_buffer (e : Expresser) (b : Buffer) (σ : Counters) :
    writeChild e b σ = (writeChild e [] σ).map (onto b) := by
  match e with
  | .nil => simp [writeChild, Expresser.isNil, onto]
  | .node l r body =>
    simp only [writeChild, Expresser.isNil]
    exact WriteTo_buffer (.node l r body) b σ
  | .argNode l r body c a =>
    simp only [writeChild, Expresser.isNil]
    exact WriteTo_buffer (.argNode l r body c a) b σ
  | .listNode l r body es =>
    simp only [writeChild, Expresser.isNil]
    exact WriteTo_buffer (.listNode l r body es) b σ
  | .namesNode l r body ns =>
    simp only [writeChild, Expresser.isNil]
    exact WriteTo_buffer (.namesNode l r body ns) b σ
theorem writeExpressions_buffer (body : Text) (es : List Expresser) (i : Nat) (b : Buffer)
    (σ : Counters) :
    writeExpressions body es i b σ = (writeExpressions body es i [] σ).map (onto b) := by
  match es with
  | [] => simp [writeExpressions, onto]
  | e :: es =>
    rw [writeExpressions_cons, writeExpressions_cons, WriteTo_buffer e,
      WriteTo_buffer e (if i > 0 then [] ++ _ else [])]
    cases h : e.WriteTo [] σ with
    | none => simp
    | some p =>
      simp only [Option.map_some', Option.some_bind, onto]
      rw [writeExpressions_buffer body es (i + 1), writeExpressions_buffer body es (i + 1) (_ ++ p.1)]
      cases h2 : writeExpressions body es (i + 1) [] p.2 with
      | none => simp
      | some q => split <;> simp [onto]
end

/-! ### Text of a buffer -/

theorem intercalate_go (sep acc : Text) (xs : List Text) :
    String.intercalate.go acc sep xs = acc ++ prefixed sep xs := by
  induction xs generalizing acc with
  | nil => simp [String.intercalate.go, prefixed]
  | cons x xs ih => simp [String.intercalate.go, prefixed, ih, String.append_assoc]

theorem intercalate_cons (sep x : Text) (xs : List Text) :
    sep.intercalate (x :: xs) = x ++ prefixed sep xs := by
  simp [String.intercalate, intercalate_go]

theorem Buffer.String_append (a b : Buffer) :
    Buffer.String (a ++ b) = Buffer.String a ++ Buffer.String b := by
  induction a with
  | nil => simp [Buffer.String]
  | cons p ps ih => simp [Buffer.String, ih, String.append_assoc]

theorem writeNames_text_pos (body : Text) (ns : List Text) (i : Nat) (hi : 0 < i) :
    Buffer.String (writeNames body ns i []) = prefixed body ns := by
  induction ns generalizing i with
  | nil => simp [writeNames, Buffer.String, prefixed]
  | cons n ns ih =>
    simp only [writeNames, Buffer.WriteString, hi, if_true]
    rw [writeNames_buffer, Buffer.String_append, ih (i + 1) (by omega)]
    simp [Buffer.String, Piece.toText, prefixed, String.append_assoc]

theorem writeNames_text (body : Text) (ns : List Text) :
    Buffer.String (writeNames body ns 0 []) = body.intercalate ns := by
  cases ns with
  | nil => simp [writeNames, Buffer.String, String.intercalate]
  | cons n ns =>
    simp only [writeNames, Buffer.WriteString]
    rw [writeNames_buffer, Buffer.String_append, writeNames_text_pos _ _ _ (by omega),
      intercalate_cons]
    simp [Buffer.String, Piece.toText]

theorem TrimSpace_wrap (c d : Char) (m : List Char) (hc : IsSpace c = false)
    (hd : IsSpace d = false) :
    TrimSpace ⟨' ' :: c :: (m ++ [d, ' '])⟩ = ⟨c :: (m ++ [d])⟩ := by
  have h1 : IsSpace ' ' = true := by decide
  simp only [TrimSpace]
  congr 1
  rw [List.dropWhile_cons_of_pos h1, List.dropWhile_cons_of_neg (by simp [hc])]
  have : c :: (m ++ [d, ' ']) = (c :: (m ++ [d])) ++ [' '] := by simp
  rw [this, List.rdropWhile_concat_pos _ _ _ h1]
  have : c :: (m ++ [d]) = (c :: m) ++ [d] := by simp
  rw [this, List.rdropWhile_concat_neg _ _ _ (by simp [hd])]

/-! ### The counter -/

theorem wrapInt64_of_range (x : Int) (h0 : -2 ^ 63 ≤ x) (h1 : x < 2 ^ 63) : wrapInt64 x = x := by
  unfold wrapInt64
  norm_num at h0 h1 ⊢
  omega

theorem counter_inc_index (c : counter) (h0 : -2 ^ 63 ≤ c.index) (h1 : c.index + 1 < 2 ^ 63) :
    c.inc = { index := c.index + 1 } := by
  simp only [counter.inc]
  rw [wrapInt64_of_range _ (by omega) h1]

theorem dollars_eq_map (c : Int) (n : Nat) :
    dollars c n = (List.range n).map fun (j : Nat) => "$" ++ FormatInt (c + 1 + (j : Int)) := by
  induction n generalizing c with
  | zero => simp [dollars]
  | succ n ih =>
    rw [dollars, ih, List.range_succ_eq_map]
    simp only [List.map_cons, List.map_map, Nat.cast_zero, add_zero, List.cons.injEq, true_and]
    apply List.map_congr_left
    intro j _
    simp only [Function.comp, Nat.cast_succ]
    congr 2
    ring

theorem FormatInt_natCast (n : Nat) : FormatInt (n : Int) = Nat.repr n := by
  simp [FormatInt]

theorem dollars_zero_eq (n : Nat) :
    dollars 0 n = (List.range n).map fun j => "$" ++ Nat.repr (j + 1) := by
  rw [dollars_eq_map]
  apply List.map_congr_left
  intro j _
  have : (0 : Int) + 1 + (j : Int) = ((j + 1 : Nat) : Int) := by push_cast; ring
  rw [this, FormatInt_natCast]

/-! ### Lists of placeholders -/

theorem writeExpressions_argNodes_pos (body : Text) (r : CounterRef) (vs : List Value) (i : Nat)
    (σ : Counters) (hi : 0 < i) (h0 : -2 ^ 63 ≤ (σ r).index)
    (h1 : (σ r).index + vs.length < 2 ^ 63) :
    ∃ out, writeExpressions body (argNodes r vs) i [] σ =
        some (out, Function.update σ r { index := (σ r).index + vs.length }) ∧
      Buffer.String out = prefixed body (dollars (σ r).index vs.length) := by
  induction vs generalizing i σ with
  | nil =>
    refine ⟨[], ?_, by simp [Buffer.String, dollars, prefixed]⟩
    simp [argNodes, writeExpressions]
  | cons v vs ih =>
    simp only [List.length_cons, Nat.cast_succ] at h1
    have hinc := counter_inc_index (σ r) h0 (by omega)
    obtain ⟨out, hout, htext⟩ := ih (i + 1) (Function.update σ r (σ r).inc) (by omega)
      (by simp [hinc]; omega) (by simp [hinc]; omega)
    refine ⟨[Piece.text body, Piece.placeholder ((σ r).index + 1) r v] ++ out, ?_, ?_⟩
    · simp only [argNodes, List.map_cons] at hout ⊢
      rw [writeExpressions_cons, WriteTo_argNode]
      simp only [hi, if_true, Option.some_bind, List.nil_append]
      rw [writeExpressions_buffer, hout]
      simp only [Option.map_some', onto, hinc, Function.update_same, Function.update_idem,
        List.length_cons, Nat.cast_succ]
      simp [add_assoc, add_comm (1 : Int)]
    · rw [Buffer.String_append, htext]
      simp [Buffer.String, Piece.toText, dollars, prefixed, hinc, String.append_assoc]

theorem writeExpressions_argNodes (body : Text) (r : CounterRef) (vs : List Value)
    (σ : Counters) (h0 : -2 ^ 63 ≤ (σ r).index) (h1 : (σ r).index + vs.length < 2 ^ 63) :
    ∃ out, writeExpressions body (argNodes r vs) 0 [] σ =
        some (out, Function.update σ r { index := (σ r).index + vs.length }) ∧
      Buffer.String out = body.intercalate (dollars (σ r).index vs.length) := by
  cases vs with
  | nil =>
    refine ⟨[], ?_, by simp [Buffer.String, dollars, String.intercalate]⟩
    simp [argNodes, writeExpressions]
  | cons v vs =>
    simp only [List.length_cons, Nat.cast_succ] at h1
    have hinc := counter_inc_index (σ r) h0 (by omega)
    obtain ⟨out, hout, htext⟩ := writeExpressions_argNodes_pos body r vs 1
      (Function.update σ r (σ r).inc) (by omega) (by simp [hinc]; omega) (by simp [hinc]; omega)
    refine ⟨[Piece.placeholder ((σ r).index + 1) r v] ++ out, ?_, ?_⟩
    · simp only [argNodes, List.map_cons] at hout ⊢
      rw [writeExpressions_cons, WriteTo_argNode]
      simp only [lt_irrefl, if_false, Option.some_bind, List.nil_append, zero_add]
      rw [writeExpressions_buffer, hout]
      simp only [Option.map_some', onto, hinc, Function.update_same, Function.update_idem,
        List.length_cons, Nat.cast_succ]
      simp [add_assoc, add_comm (1 : Int)]
    · rw [Buffer.String_append, htext]
      simp [Buffer.String, Piece.toText, dollars, intercalate_cons, hinc]

theorem args_argNodes (r : CounterRef) (vs acc : List Value) :
    argsExpressions (argNodes r vs) acc = some (acc ++ vs) := by
  induction vs generalizing acc with
  | nil => simp [argNodes, argsExpressions]
  | cons v vs ih =>
    simp only [argNodes, List.map_cons] at ih ⊢
    simp [argsExpressions, Builder.args, Expresser.isNil, ih]

/-! ### Insert -/

theorem Buffer.Len_nil : Buffer.Len [] = 0 := by decide

theorem Builder.String_of_WriteTo (b : Builder) (σ σ' : Counters) (buf : Buffer)
    (hb : b.buffer = []) (h : b.first.WriteTo [] σ = some (buf, σ')) :
    b.String σ = some (TrimSpace (Buffer.String buf), { b with buffer := buf }, σ') := by
  simp [Builder.String, hb, Buffer.Len_nil, h]

theorem Builder.Args_of_range (b : Builder) (σ : Counters) (h0 : 0 ≤ (σ b.counter).index)
    (h1 : (σ b.counter).index ≤ maxSliceCap) : (b.Args σ).1 = Builder.args b.first [] := by
  simp only [Builder.Args]
  rw [if_neg]
  intro h
  rcases h with h | h <;> omega

theorem Builder.Args_of_out (b : Builder) (σ : Counters)
    (h : (σ b.counter).index < 0 ∨ maxSliceCap < (σ b.counter).index) : (b.Args σ).1 = none := by
  simp only [Builder.Args]
  rw [if_pos h]

/-- C2: on a fresh builder, `Insert().Into(t).Columns(cs...).Values(vs...)` succeeds, its
`String()` is `INSERT  INTO t (c1, ..., cm)  VALUES($1, ..., $n)` and its `Args()`, before
and after the render, is `vs` (for fewer than `2^63` values, the range of the counter; after
the render the counter holds `n`, and `Args()` returns when `make` accepts `n` as a
capacity, which every list of values that fits in memory satisfies). -/
theorem C2_insert_into_columns_values (r : CounterRef) (σ : Counters) (t : Text)
    (cs : List Text) (vs : List Value) (h : vs.length < 2 ^ 63) :
    ∃ b b' σ',
      (((New r σ).1.Insert.Into t).bind fun b => b.Columns cs).bind (fun b => b.Values vs)
        = some b ∧
      b.String (New r σ).2 =
        some ("INSERT  INTO " ++ t ++ " (" ++ ", ".intercalate cs ++ ")  VALUES(" ++
          ", ".intercalate ((List.range vs.length).map fun j => "$" ++ Nat.repr (j + 1)) ++ ")",
          b', σ') ∧
      (b.Args (New r σ).2).1 = some vs ∧
      ((vs.length : Int) ≤ maxSliceCap → (b'.Args σ').1 = some vs) := by
  have hσ : ((New r σ).2 r).index = 0 := by simp [New]
  obtain ⟨out, hout, htext⟩ := writeExpressions_argNodes ", " r vs (New r σ).2
    (by rw [hσ]; norm_num) (by rw [hσ]; exact_mod_cast (by simpa using h))
  rw [hσ, dollars_zero_eq] at htext
  let tree : Expresser :=
    .node .nil (.node .nil (.node .nil
      (.namesNode (.node .nil .nil " (")
        (.node .nil (.listNode (.node .nil .nil " VALUES(") (.node .nil .nil ") ") ", "
          (argNodes r vs)) ") ") ", " cs) t) " INTO ") " INSERT "
  have hw : tree.WriteTo [] (New r σ).2 =
      some ([Piece.text " INSERT ", Piece.text " INTO ", Piece.text t, Piece.text " ("] ++
        writeNames ", " cs 0 [] ++ [Piece.text ") ", Piece.text " VALUES("] ++ out ++
        [Piece.text ") "], Function.update (New r σ).2 r { index := ((New r σ).2 r).index + vs.length }) := by
    simp only [tree, WriteTo_node, WriteTo_namesNode, WriteTo_listNode, writeChild,
      Expresser.isNil, if_true, Option.some_bind, List.nil_append, Bool.false_eq_true, if_false]
    rw [writeExpressions_buffer, hout]
    simp only [Option.map_some', Option.some_bind, onto]
    rw [writeNames_buffer]
    simp
  have hargs : Builder.args tree [] = some vs := by
    simp [tree, Builder.args, Expresser.isNil, args_argNodes]
  have hs := Builder.String_of_WriteTo { first := tree, last := 7, counter := r, buffer := [] }
    _ _ _ rfl hw
  have e1 : ∀ x y : Text, Buffer.String [Piece.text " INSERT ", Piece.text " INTO ", Piece.text t,
      Piece.text " ("] ++ x ++ Buffer.String [Piece.text ") ", Piece.text " VALUES("] ++ y ++
      Buffer.String [Piece.text ") "] =
      ⟨' ' :: 'I' :: (("NSERT  INTO ".data ++ t.data ++ " (".data ++ x.data ++ ")  VALUES(".data
        ++ y.data) ++ [')', ' '])⟩ := by
    intro x y
    apply String.ext
    simp [Buffer.String, Piece.toText, String.data_append]
  have e2 : ∀ x y : Text, "INSERT  INTO " ++ t ++ " (" ++ x ++ ")  VALUES(" ++ y ++ ")" =
      ⟨'I' :: (("NSERT  INTO ".data ++ t.data ++ " (".data ++ x.data ++ ")  VALUES(".data
        ++ y.data) ++ [')'])⟩ := by
    intro x y
    apply String.ext
    simp [String.data_append]
  simp only [Buffer.String_append, writeNames_text, htext] at hs
  rw [e1, TrimSpace_wrap _ _ _ (by decide) (by decide), ← e2] at hs
  refine ⟨_, _, _, rfl, hs, ?_, fun hcap => ?_⟩
  · rw [Builder.Args_of_range _ _ (by show 0 ≤ ((New r σ).2 r).index; rw [hσ])
      (by show ((New r σ).2 r).index ≤ maxSliceCap; rw [hσ]; decide)]
    exact hargs
  · rw [Builder.Args_of_range _ _
      (by show 0 ≤ (Function.update (New r σ).2 r _ r).index
          rw [Function.update_same, hσ]; simp)
      (by show (Function.update (New r σ).2 r _ r).index ≤ maxSliceCap
          rw [Function.update_same, hσ]; simpa using hcap)]
    exact hargs

/-- C2 at the example of the test: `user`, three columns, three values; the text is the
one the test expects. -/
theorem C2_insert_into_columns_values_witness :
    "INSERT  INTO " ++ "user" ++ " (" ++
        ", ".intercalate ["username", "first_name", "last_name"] ++ ")  VALUES(" ++
        ", ".intercalate ((List.range 3).map fun j => "$" ++ Nat.repr (j + 1)) ++ ")"
      = "INSERT  INTO user (username, first_name, last_name)  VALUES($1, $2, $3)" ∧
    [Value.str "john.snow@gmail.com", Value.str "John", Value.str "Snow"].length < 2 ^ 63 ∧
    ∃ b b' σ',
      ((((New 0 noCounters).1.Insert.Into "user").bind fun b =>
          b.Columns ["username", "first_name", "last_name"]).bind
        fun b => b.Values [Value.str "john.snow@gmail.com", Value.str "John", Value.str "Snow"])
        = some b ∧
      b.String (New 0 noCounters).2 =
        some ("INSERT  INTO " ++ "user" ++ " (" ++
          ", ".intercalate ["username", "first_name", "last_name"] ++ ")  VALUES(" ++
          ", ".intercalate ((List.range
            [Value.str "john.snow@gmail.com", Value.str "John", Value.str "Snow"].length).map
              fun j => "$" ++ Nat.repr (j + 1)) ++ ")",
          b', σ') ∧
      (b.Args (New 0 noCounters).2).1 =
        some [Value.str "john.snow@gmail.com", Value.str "John", Value.str "Snow"] ∧
      (b'.Args σ').1 = some [Value.str "john.snow@gmail.com", Value.str "John", Value.str "Snow"] :=
  ⟨by decide, by decide,
    match C2_insert_into_columns_values 0 noCounters "user"
      ["username", "first_name", "last_name"]
      [Value.str "john.snow@gmail.com", Value.str "John", Value.str "Snow"] (by decide) with
    | ⟨b, b', σ', h1, h2, h3, h4⟩ => ⟨b, b', σ', h1, h2, h3, h4 (by decide)⟩⟩

/-! ### Select with a conjunction -/

theorem Comparison.build_eq (op : Comparison) (l r : Expresser) :
    op.build l r = .node l r op.text := by
  cases op <;> rfl

theorem WriteTo_conjunct (b : Builder) (cj : Conjunct) (σ : Counters) (k : Nat)
    (hk : (σ b.counter).index = k) (h : k + (conjunctArgs [cj]).length < 2 ^ 63) :
    ∃ out, (cj.expr b).WriteTo [] σ =
        some (out, Function.update σ b.counter { index := ↑(k + (conjunctArgs [cj]).length) }) ∧
      conjunctTexts k [cj] = [Buffer.String out] := by
  cases cj with
  | compare op c v =>
    simp only [conjunctArgs, List.length_cons, List.length_nil] at h
    have hinc := counter_inc_index (σ b.counter) (by rw [hk]; norm_num; omega)
      (by rw [hk]; exact_mod_cast h)
    refine ⟨[Piece.text c, Piece.text op.text, Piece.placeholder (k + 1) b.counter v], ?_, ?_⟩
    · simp only [Conjunct.expr, Comparison.build_eq, Name, Builder.Arg, WriteTo_node, writeChild,
        Expresser.isNil, WriteTo_argNode, hinc, conjunctArgs, if_true, Option.some_bind,
        Bool.false_eq_true, if_false, List.nil_append, List.length_cons, List.length_nil]
      rw [hk]
      simp
    · have : ((k : Int) + 1) = ((k + 1 : Nat) : Int) := by push_cast; rfl
      simp only [conjunctTexts, Buffer.String, Piece.toText]
      rw [this, FormatInt_natCast]
      simp only [String.append_assoc, String.append_empty]
  | isNotNull c =>
    refine ⟨[Piece.text c, Piece.text " IS ", Piece.text " NOT NULL "], ?_, ?_⟩
    · simp [Conjunct.expr, Is, NotNull, Name, WriteTo_node, writeChild, Expresser.isNil,
        conjunctArgs, ← hk]
    · simp only [conjunctTexts, Buffer.String, Piece.toText]
      congr 1

theorem conjunctTexts_cons (k : Nat) (cj : Conjunct) (cs : List Conjunct) :
    conjunctTexts k (cj :: cs) =
      conjunctTexts k [cj] ++ conjunctTexts (k + (conjunctArgs [cj]).length) cs := by
  cases cj <;> simp [conjunctTexts, conjunctArgs]

theorem conjunctArgs_cons (cj : Conjunct) (cs : List Conjunct) :
    conjunctArgs (cj :: cs) = conjunctArgs [cj] ++ conjunctArgs cs := by
  cases cj <;> simp [conjunctArgs]

theorem writeExpressions_conjuncts_pos (b : Builder) (cs : List Conjunct) (i : Nat)
    (σ : Counters) (k : Nat) (hi : 0 < i) (hk : (σ b.counter).index = k)
    (h : k + (conjunctArgs cs).length < 2 ^ 63) :
    ∃ out, writeExpressions " AND " (cs.map (Conjunct.expr b)) i [] σ =
        some (out, Function.update σ b.counter { index := ↑(k + (conjunctArgs cs).length) }) ∧
      Buffer.String out = prefixed " AND " (conjunctTexts k cs) := by
  induction cs generalizing i σ k with
  | nil =>
    refine ⟨[], ?_, by simp [Buffer.String, conjunctTexts, prefixed]⟩
    simp [writeExpressions, conjunctArgs, ← hk]
  | cons cj cs ih =>
    rw [conjunctArgs_cons, List.length_append] at h
    obtain ⟨o1, ho1, ht1⟩ := WriteTo_conjunct b cj σ k hk (by omega)
    obtain ⟨o2, ho2, ht2⟩ := ih (i + 1)
      (Function.update σ b.counter { index := ↑(k + (conjunctArgs [cj]).length) })
      (k + (conjunctArgs [cj]).length) (by omega) (by simp) (by omega)
    refine ⟨[Piece.text " AND "] ++ o1 ++ o2, ?_, ?_⟩
    · rw [List.map_cons, writeExpressions_cons, WriteTo_buffer, ho1]
      simp only [hi, if_true, Option.map_some', Option.some_bind, onto]
      rw [writeExpressions_buffer, ho2, conjunctArgs_cons cj cs]
      simp [onto, add_assoc]
    · rw [conjunctTexts_cons, ht1, Buffer.String_append, Buffer.String_append, ht2]
      simp [prefixed, Buffer.String, Piece.toText, String.append_assoc]

theorem writeExpressions_conjuncts (b : Builder) (cs : List Conjunct) (σ : Counters) (k : Nat)
    (hk : (σ b.counter).index = k) (h : k + (conjunctArgs cs).length < 2 ^ 63) :
    ∃ out, writeExpressions " AND " (cs.map (Conjunct.expr b)) 0 [] σ =
        some (out, Function.update σ b.counter { index := ↑(k + (conjunctArgs cs).length) }) ∧
      Buffer.String out = " AND ".intercalate (conjunctTexts k cs) := by
  cases cs with
  | nil =>
    refine ⟨[], ?_, by simp [Buffer.String, conjunctTexts, String.intercalate]⟩
    simp [writeExpressions, conjunctArgs, ← hk]
  | cons cj cs =>
    rw [conjunctArgs_cons, List.length_append] at h
    obtain ⟨o1, ho1, ht1⟩ := WriteTo_conjunct b cj σ k hk (by omega)
    obtain ⟨o2, ho2, ht2⟩ := writeExpressions_conjuncts_pos b cs 1
      (Function.update σ b.counter { index := ↑(k + (conjunctArgs [cj]).length) })
      (k + (conjunctArgs [cj]).length) (by omega) (by simp) (by omega)
    refine ⟨o1 ++ o2, ?_, ?_⟩
    · rw [List.map_cons, writeExpressions_cons]
      simp only [gt_iff_lt, lt_irrefl, if_false, zero_add]
      rw [ho1]
      simp only [Option.some_bind]
      rw [writeExpressions_buffer, ho2, conjunctArgs_cons cj cs]
      simp [onto, add_assoc]
    · rw [conjunctTexts_cons, ht1, Buffer.String_append, ht2]
      simp [intercalate_cons]

theorem args_conjuncts (b : Builder) (cs : List Conjunct) (acc : List Value) :
    argsExpressions (cs.map (Conjunct.expr b)) acc = some (acc ++ conjunctArgs cs) := by
  induction cs generalizing acc with
  | nil => simp [argsExpressions, conjunctArgs]
  | cons cj cs ih =>
    cases cj <;>
      simp [argsExpressions, Conjunct.expr, Comparison.build_eq, Name, Builder.Arg, Is, NotNull,
        Builder.args, Expresser.isNil, ih, conjunctArgs]

/-- C3: on a fresh builder, `Select(Name(t)).From(Name(s)).Where(And(conjuncts...))` with
conjuncts `Op(Name(c), b.Arg(v))` (`Op` among `Equal`, `Contains`, `IsContainedBy`, `HasKey`)
or `Is(Name(c), NotNull())` succeeds; its `String()` is
`SELECT t FROM s WHERE  (` + the conjunct texts joined by ` AND ` + `)`, the k-th
placeholder-bearing conjunct being `c op $k` and an `Is` conjunct `c IS  NOT NULL `; its
`Args()` is the list of the `v` in conjunct order (for fewer than `2^63` placeholders; the
list of conjuncts may also be empty; after the render `Args()` returns when `make` accepts
the number of placeholders as a capacity). -/
theorem C3_select_from_where_and (r : CounterRef) (σ : Counters) (t s : Text)
    (cs : List Conjunct) (h : (conjunctArgs cs).length < 2 ^ 63) :
    ∃ b b' σ',
      (((New r σ).1.Select (Name t)).From (Name s)).bind
        (fun b => b.Where (And (cs.map (Conjunct.expr b)))) = some b ∧
      b.String (New r σ).2 =
        some ("SELECT " ++ t ++ " FROM " ++ s ++ " WHERE  (" ++
          " AND ".intercalate (conjunctTexts 0 cs) ++ ")", b', σ') ∧
      (b.Args (New r σ).2).1 = some (conjunctArgs cs) ∧
      (((conjunctArgs cs).length : Int) ≤ maxSliceCap →
        (b'.Args σ').1 = some (conjunctArgs cs)) := by
  let b0 : Builder := { first := .nil, last := 0, counter := r, buffer := [] }
  have hσ : ((New r σ).2 b0.counter).index = (0 : Nat) := by simp [New, b0]
  obtain ⟨out, hout, htext⟩ := writeExpressions_conjuncts b0 cs (New r σ).2 0 hσ (by omega)
  let tree : Expresser :=
    .node .nil (.node .nil (.node .nil (.node .nil (.node .nil
      (And (cs.map (Conjunct.expr b0))) " WHERE ") s) " FROM ") t) " SELECT "
  have hw : tree.WriteTo [] (New r σ).2 =
      some ([Piece.text " SELECT ", Piece.text t, Piece.text " FROM ", Piece.text s,
        Piece.text " WHERE ", Piece.text " ("] ++ out ++ [Piece.text ") "],
        Function.update (New r σ).2 b0.counter
          { index := ↑(0 + (conjunctArgs cs).length) }) := by
    simp only [tree, And, WriteTo_node, WriteTo_listNode, writeChild,
      Expresser.isNil, if_true, Option.some_bind, List.nil_append, Bool.false_eq_true, if_false]
    rw [writeExpressions_buffer, hout]
    simp [onto]
  have hargs : Builder.args tree [] = some (conjunctArgs cs) := by
    simp [tree, And, Builder.args, Expresser.isNil, args_conjuncts]
  have hs := Builder.String_of_WriteTo { first := tree, last := 5, counter := r, buffer := [] }
    _ _ _ rfl hw
  have e1 : ∀ x : Text, Buffer.String [Piece.text " SELECT ", Piece.text t, Piece.text " FROM ",
      Piece.text s, Piece.text " WHERE ", Piece.text " ("] ++ x ++
      Buffer.String [Piece.text ") "] =
      ⟨' ' :: 'S' :: (("ELECT ".data ++ t.data ++ " FROM ".data ++ s.data ++ " WHERE  (".data
        ++ x.data) ++ [')', ' '])⟩ := by
    intro x
    apply String.ext
    simp [Buffer.String, Piece.toText, String.data_append]
  have e2 : ∀ x : Text, "SELECT " ++ t ++ " FROM " ++ s ++ " WHERE  (" ++ x ++ ")" =
      ⟨'S' :: (("ELECT ".data ++ t.data ++ " FROM ".data ++ s.data ++ " WHERE  (".data
        ++ x.data) ++ [')'])⟩ := by
    intro x
    apply String.ext
    simp [String.data_append]
  simp only [Buffer.String_append, htext] at hs
  rw [e1, TrimSpace_wrap _ _ _ (by decide) (by decide), ← e2] at hs
  have hσ0 : ((New r σ).2 r).index = 0 := by simp [New]
  refine ⟨_, _, _, rfl, hs, ?_, fun hcap => ?_⟩
  · rw [Builder.Args_of_range _ _ (by show 0 ≤ ((New r σ).2 r).index; rw [hσ0])
      (by show ((New r σ).2 r).index ≤ maxSliceCap; rw [hσ0]; decide)]
    exact hargs
  · rw [Builder.Args_of_range _ _
      (by show 0 ≤ (Function.update (New r σ).2 r _ r).index
          rw [Function.update_same]; simp)
      (by show (Function.update (New r σ).2 r _ r).index ≤ maxSliceCap
          rw [Function.update_same]; simpa using hcap)]
    exact hargs

/-- C3 at the example of the test: five conjuncts, four of them with a placeholder; the
text and the values are the ones the test expects. -/
theorem C3_select_from_where_and_witness :
    "SELECT " ++ "*" ++ " FROM " ++ "user" ++ " WHERE  (" ++
        " AND ".intercalate (conjunctTexts 0 [Conjunct.compare .Equal "updated_at" (.int 5),
          Conjunct.isNotNull "updated_at",
          Conjunct.compare .Contains "roles" (.map [("manager", 1)]),
          Conjunct.compare .IsContainedBy "something" (.str "'\x7b\"a\":1, \"b\":2\x7d'"),
          Conjunct.compare .HasKey "something" (.str "key")]) ++ ")"
      = "SELECT * FROM user WHERE  (updated_at = $1 AND updated_at IS  NOT NULL  AND roles @> $2 AND something <@ $3 AND something ? $4)" ∧
    conjunctArgs [Conjunct.compare .Equal "updated_at" (.int 5),
        Conjunct.isNotNull "updated_at",
        Conjunct.compare .Contains "roles" (.map [("manager", 1)]),
        Conjunct.compare .IsContainedBy "something" (.str "'\x7b\"a\":1, \"b\":2\x7d'"),
        Conjunct.compare .HasKey "something" (.str "key")]
      = [.int 5, .map [("manager", 1)], .str "'\x7b\"a\":1, \"b\":2\x7d'", .str "key"] ∧
    (conjunctArgs [Conjunct.compare .Equal "updated_at" (.int 5),
      Conjunct.isNotNull "updated_at",
      Conjunct.compare .Contains "roles" (.map [("manager", 1)]),
      Conjunct.compare .IsContainedBy "something" (.str "'\x7b\"a\":1, \"b\":2\x7d'"),
      Conjunct.compare .HasKey "something" (.str "key")]).length < 2 ^ 63 ∧
    ∃ b b' σ',
      (((New 0 noCounters).1.Select (Name "*")).From (Name "user")).bind
        (fun b => b.Where (And ([Conjunct.compare .Equal "updated_at" (.int 5),
          Conjunct.isNotNull "updated_at",
          Conjunct.compare .Contains "roles" (.map [("manager", 1)]),
          Conjunct.compare .IsContainedBy "something" (.str "'\x7b\"a\":1, \"b\":2\x7d'"),
          Conjunct.compare .HasKey "something" (.str "key")].map (Conjunct.expr b)))) = some b ∧
      b.String (New 0 noCounters).2 =
        some ("SELECT " ++ "*" ++ " FROM " ++ "user" ++ " WHERE  (" ++
          " AND ".intercalate (conjunctTexts 0 [Conjunct.compare .Equal "updated_at" (.int 5),
            Conjunct.isNotNull "updated_at",
            Conjunct.compare .Contains "roles" (.map [("manager", 1)]),
            Conjunct.compare .IsContainedBy "something" (.str "'\x7b\"a\":1, \"b\":2\x7d'"),
            Conjunct.compare .HasKey "something" (.str "key")]) ++ ")", b', σ') ∧
      (b.Args (New 0 noCounters).2).1 =
        some (conjunctArgs [Conjunct.compare .Equal "updated_at" (.int 5),
          Conjunct.isNotNull "updated_at",
          Conjunct.compare .Contains "roles" (.map [("manager", 1)]),
          Conjunct.compare .IsContainedBy "something" (.str "'\x7b\"a\":1, \"b\":2\x7d'"),
          Conjunct.compare .HasKey "something" (.str "key")]) ∧
      (b'.Args σ').1 =
        some (conjunctArgs [Conjunct.compare .Equal "updated_at" (.int 5),
          Conjunct.isNotNull "updated_at",
          Conjunct.compare .Contains "roles" (.map [("manager", 1)]),
          Conjunct.compare .IsContainedBy "something" (.str "'\x7b\"a\":1, \"b\":2\x7d'"),
          Conjunct.compare .HasKey "something" (.str "key")]) :=
  ⟨by decide, by decide, by decide,
    match C3_select_from_where_and 0 noCounters "*" "user"
      [Conjunct.compare .Equal "updated_at" (.int 5),
        Conjunct.isNotNull "updated_at",
        Conjunct.compare .Contains "roles" (.map [("manager", 1)]),
        Conjunct.compare .IsContainedBy "something" (.str "'\x7b\"a\":1, \"b\":2\x7d'"),
        Conjunct.compare .HasKey "something" (.str "key")] (by decide) with
    | ⟨b, b', σ', h1, h2, h3, h4⟩ => ⟨b, b', σ', h1, h2, h3, h4 (by decide)⟩⟩

/-! ### The cache -/

theorem Buffer.Len_eq_zero_iff (b : Buffer) : Buffer.Len b = 0 ↔ Buffer.String b = "" := by
  simp only [Buffer.Len, String.utf8ByteSize, String.utf8ByteSize.go_eq, String.utf8Len_eq_zero]
  constructor
  · intro h
    exact String.ext h
  · intro h
    rw [h]

theorem Buffer.String_text_ne (a rest : Buffer) (body : Text) (hbody : body ≠ "") :
    Buffer.String (a ++ [Piece.text body] ++ rest) ≠ "" := by
  intro h
  have hd := congrArg String.data h
  simp only [Buffer.String_append, Buffer.String, Piece.toText, String.data_append,
    String.append_empty] at hd
  have : body.data = [] := by
    have h2 : (Buffer.String a).data ++ body.data ++ (Buffer.String rest).data = [] := hd
    simp only [List.append_eq_nil] at h2
    exact h2.1.2
  exact hbody (String.ext this)

theorem WriteTo_root (right : Expresser) (body : Text) (b buf : Buffer) (σ σ' : Counters)
    (h : (Expresser.node .nil right body).WriteTo b σ = some (buf, σ')) :
    ∃ rest, buf = b ++ [Piece.text body] ++ rest := by
  rw [WriteTo_node] at h
  have hnil : writeChild .nil b σ = some (b, σ) := rfl
  rw [hnil] at h
  simp only [Option.some_bind] at h
  rw [writeChild_buffer] at h
  cases hr : writeChild right [] σ with
  | none => simp [hr] at h
  | some p =>
    simp only [hr, Option.map_some', onto, Option.some.injEq, Prod.mk.injEq] at h
    exact ⟨p.1, h.1.symm⟩

theorem Builder.String_buffer_ne (b b1 : Builder) (σ σ1 : Counters) (s1 : Text)
    (hroot : b.rooted) (h1 : b.String σ = some (s1, b1, σ1)) :
    Buffer.Len b1.buffer ≠ 0 ∧ s1 = TrimSpace (Buffer.String b1.buffer) := by
  unfold Builder.String at h1
  by_cases hlen : Buffer.Len b.buffer = 0
  · simp only [hlen, if_true] at h1
    cases hw : b.first.WriteTo b.buffer σ with
    | none => simp [hw] at h1
    | some p =>
      simp only [hw, Option.some.injEq, Prod.mk.injEq] at h1
      obtain ⟨hs, hb1, _⟩ := h1
      subst hb1
      refine ⟨?_, hs.symm⟩
      obtain ⟨right, hf | hf⟩ := hroot <;>
      · rw [hf] at hw
        obtain ⟨rest, hrest⟩ := WriteTo_root _ _ _ _ _ _ hw
        rw [hrest, Ne, Buffer.Len_eq_zero_iff]
        refine Buffer.String_text_ne _ _ _ ?_
        decide
  · simp only [hlen, if_false, Option.some.injEq, Prod.mk.injEq] at h1
    obtain ⟨hs, hb1, _⟩ := h1
    subst hb1
    exact ⟨hlen, hs.symm⟩

theorem Builder.String_cached (b : Builder) (σ : Counters) (h : Buffer.Len b.buffer ≠ 0) :
    b.String σ = some (TrimSpace (Buffer.String b.buffer), b, σ) := by
  simp [Builder.String, h]

/-- C4: on a builder whose root was made by `Select` or `Insert`, when `String()` has
returned the text `s1`, leaving the builder `b1` and the counters `σ1`, a second `String()`
returns the same text `s1` and leaves the builder and every counter as they were after the
first call. -/
theorem C4_string_twice (b b1 : Builder) (σ σ1 : Counters) (s1 : Text) (hroot : b.rooted)
    (h1 : b.String σ = some (s1, b1, σ1)) :
    b1.String σ1 = some (s1, b1, σ1) := by
  obtain ⟨hlen, hs⟩ := Builder.String_buffer_ne b b1 σ σ1 s1 hroot h1
  rw [Builder.String_cached _ _ hlen, hs]

/-- C4 at `b := New(); b.Select(b.Arg(5))`: both calls return `SELECT $1` and the
counter stays at 1. -/
theorem C4_string_twice_witness :
    selectArg.rooted ∧
    ∃ b1 σ1, selectArg.String (New 0 noCounters).2 = some ("SELECT $1", b1, σ1) ∧
      (σ1 0).index = 1 ∧ b1.String σ1 = some ("SELECT $1", b1, σ1) :=
  ⟨⟨_, Or.inl rfl⟩, _, _, rfl, rfl,
    C4_string_twice selectArg _ (New 0 noCounters).2 _ "SELECT $1" ⟨_, Or.inl rfl⟩ rfl⟩

theorem Builder.add_buffer (b b' : Builder) (left : Expresser) (steps : Nat)
    (h : b.add left steps = some b') : b'.buffer = b.buffer := by
  unfold Builder.add at h
  cases hs : setRightAt b.last b.first left with
  | none => simp [hs] at h
  | some f =>
    simp only [hs, Option.some.injEq] at h
    rw [← h]

theorem Builder.apply_buffer (b b' : Builder) (m : Mutation) (h : b.apply m = some b') :
    b'.buffer = b.buffer := by
  cases m <;> simp only [Builder.apply, Option.some.injEq] at h
  case Insert => rw [← h]; rfl
  case Select => rw [← h]; rfl
  all_goals exact Builder.add_buffer _ _ _ _ h

theorem setRightAt_isSome (k : Nat) (e x : Expresser) (h : (nodeAt k e).isNil = false) :
    ∃ e', setRightAt k e x = some e' := by
  induction k generalizing e with
  | zero =>
    cases e <;> simp [nodeAt, Expresser.isNil, setRightAt, Expresser.SetRight] at h ⊢
  | succ k ih =>
    cases e with
    | nil => simp [nodeAt, Expresser.Right, Expresser.isNil] at h
    | node l r body =>
      simp only [nodeAt, Expresser.Right] at h
      obtain ⟨r', hr'⟩ := ih r h
      simp [setRightAt, Expresser.Right, hr', Expresser.SetRight]
    | argNode l r body c a =>
      simp only [nodeAt, Expresser.Right] at h
      obtain ⟨r', hr'⟩ := ih r h
      simp [setRightAt, Expresser.Right, hr', Expresser.SetRight]
    | listNode l r body es =>
      simp only [nodeAt, Expresser.Right] at h
      obtain ⟨r', hr'⟩ := ih r h
      simp [setRightAt, Expresser.Right, hr', Expresser.SetRight]
    | namesNode l r body ns =>
      simp only [nodeAt, Expresser.Right] at h
      obtain ⟨r', hr'⟩ := ih r h
      simp [setRightAt, Expresser.Right, hr', Expresser.SetRight]

theorem Builder.add_isSome (b : Builder) (left : Expresser) (steps : Nat)
    (h : b.lastNode.isNil = false) : ∃ b', b.add left steps = some b' := by
  obtain ⟨f, hf⟩ := setRightAt_isSome b.last b.first left h
  simp [Builder.add, hf]

theorem Builder.apply_isSome (b : Builder) (m : Mutation) (h : b.lastNode.isNil = false) :
    ∃ b', b.apply m = some b' := by
  cases m
  case Insert => exact ⟨_, rfl⟩
  case Select => exact ⟨_, rfl⟩
  all_goals exact Builder.add_isSome _ _ _ h

/-- C5: when a builder whose root was made by `Select` or `Insert` has been rendered
(`String()` returned `s1`), then after any tree-changing operation (a clause operation, or a
new `Select` or `Insert`) without `Reset`, the next `String()` returns the text `s1` of the
first render and leaves the counters alone; the operation itself returns whenever the cursor
is present (`Select` and `Insert` always return). -/
theorem C5_stale_cache_after_mutation (b b1 : Builder) (σ σ1 : Counters) (s1 : Text)
    (m : Mutation) (hroot : b.rooted) (h1 : b.String σ = some (s1, b1, σ1)) :
    (∀ b2, b1.apply m = some b2 → b2.String σ1 = some (s1, b2, σ1)) ∧
    (b1.lastNode.isNil = false → ∃ b2, b1.apply m = some b2) := by
  obtain ⟨hlen, hs⟩ := Builder.String_buffer_ne b b1 σ σ1 s1 hroot h1
  refine ⟨fun b2 h2 => ?_, Builder.apply_isSome b1 m⟩
  have hbuf := Builder.apply_buffer b1 b2 m h2
  rw [Builder.String_cached _ _ (by rw [hbuf]; exact hlen), hbuf, hs]

/-- C5 at `New().Select(Name("*"))`, rendered as `SELECT *`, then `From(Name("user"))`:
the next render is still `SELECT *`. -/
theorem C5_stale_cache_after_mutation_witness :
    selectStar.rooted ∧
    ∃ b1 σ1 b2, selectStar.String (New 0 noCounters).2 = some ("SELECT *", b1, σ1) ∧
      b1.apply (.From (Name "user")) = some b2 ∧
      b2.first = .node .nil (.node .nil (.node .nil (.node .nil .nil "user") " FROM ") "*")
        " SELECT " ∧
      b2.String σ1 = some ("SELECT *", b2, σ1) :=
  ⟨⟨_, Or.inl rfl⟩, _, _, _, rfl, rfl, rfl,
    (C5_stale_cache_after_mutation selectStar _ (New 0 noCounters).2 _ "SELECT *"
      (.From (Name "user")) ⟨_, Or.inl rfl⟩ rfl).1 _ rfl⟩

/-! ### Reset and Args -/

/-- C7: `Reset` empties the cached text and sets the builder's counter to zero; the root,
the cursor, the whole tree, the builder's counter address and every other counter are what
they were. -/
theorem C7_reset_frame (b : Builder) (σ : Counters) :
    Buffer.String (b.Reset σ).1.buffer = "" ∧ Buffer.Len (b.Reset σ).1.buffer = 0 ∧
    ((b.Reset σ).2 b.counter).index = 0 ∧
    (b.Reset σ).1.first = b.first ∧ (b.Reset σ).1.last = b.last ∧
    (b.Reset σ).1.lastNode = b.lastNode ∧ (b.Reset σ).1.counter = b.counter ∧
    ∀ r, r ≠ b.counter → (b.Reset σ).2 r = σ r := by
  refine ⟨rfl, rfl, by simp [Builder.Reset, counter.reset], rfl, rfl, rfl, rfl, ?_⟩
  intro r hr
  simp [Builder.Reset, Function.update_noteq hr]

theorem Builder.String_same_tree (b b1 : Builder) (σ σ1 : Counters) (s1 : Text)
    (h1 : b.String σ = some (s1, b1, σ1)) :
    b1.first = b.first ∧ b1.counter = b.counter ∧ b1.last = b.last := by
  unfold Builder.String at h1
  split at h1
  · cases hw : b.first.WriteTo b.buffer σ with
    | none => simp [hw] at h1
    | some p =>
      simp only [hw, Option.some.injEq, Prod.mk.injEq] at h1
      rw [← h1.2.1]
      exact ⟨rfl, rfl, rfl⟩
  · simp only [Option.some.injEq, Prod.mk.injEq] at h1
    rw [← h1.2.1]
    exact ⟨rfl, rfl, rfl⟩

/-- C8 (fails on the code): `Args()` reads the counter, for the capacity of its result
(`make([]interface{}, 0, b.counter.index)`). For `b := New(); b.Select(b.Arg(5))` with the
counter at -1, `Args()` panics before the render and returns `[5]` after it (the render
leaves the counter at 0); with the counter at `2^44`, the largest capacity, `Args()`
returns `[5]` before the render and panics after it (the counter is then `2^44 + 1`), and
returns `[5]` again after `Reset()`. -/
theorem C8_args_reads_the_counter :
    selectArg.rooted ∧
    (selectArg.Args (countersAt (-1))).1 = none ∧
    (∃ b1 σ1, selectArg.String (countersAt (-1)) = some ("SELECT $0", b1, σ1) ∧
      (b1.Args σ1).1 = some [Value.int 5] ∧
      (b1.Args σ1).1 ≠ (selectArg.Args (countersAt (-1))).1) ∧
    (selectArg.Args (countersAt maxSliceCap)).1 = some [Value.int 5] ∧
    (∃ b1 σ1, selectArg.String (countersAt maxSliceCap)
        = some ("SELECT $17592186044417", b1, σ1) ∧
      (b1.Args σ1).1 = none ∧
      (b1.Args σ1).1 ≠ (selectArg.Args (countersAt maxSliceCap)).1 ∧
      ((b1.Reset σ1).1.Args (b1.Reset σ1).2).1 = some [Value.int 5]) :=
  ⟨⟨_, Or.inl rfl⟩, by decide, ⟨_, _, rfl, by decide, by decide⟩, by decide,
    ⟨_, _, rfl, by decide, by decide, by decide⟩⟩

/-- C8 (as amended): when `String()` has returned and the counter of the builder holds,
before and after that render, a value that `make` accepts as a capacity (from 0 to `2^44`),
`Args()` returns the same list before the render, after `String()` and after `String()`
followed by `Reset()`: the list collected from the tree; outside that range of the counter
`Args()` panics; and a call of `Args()` leaves the builder (tree, cursor, cached text) and
the counters as they were. -/
theorem C8_args_same_within_capacity (b b1 : Builder) (σ σ1 : Counters) (s1 : Text)
    (h1 : b.String σ = some (s1, b1, σ1))
    (hb0 : 0 ≤ (σ b.counter).index) (hb1 : (σ b.counter).index ≤ maxSliceCap)
    (ha0 : 0 ≤ (σ1 b.counter).index) (ha1 : (σ1 b.counter).index ≤ maxSliceCap) :
    (b.Args σ).1 = Builder.args b.first [] ∧
    (b1.Args σ1).1 = (b.Args σ).1 ∧
    ((b1.Reset σ1).1.Args (b1.Reset σ1).2).1 = (b.Args σ).1 ∧
    (b.Args σ).2 = (b, σ) ∧ (b1.Args σ1).2 = (b1, σ1) ∧
    ((b1.Reset σ1).1.Args (b1.Reset σ1).2).2 = b1.Reset σ1 ∧
    (∀ (b2 : Builder) (σ2 : Counters),
      (σ2 b2.counter).index < 0 ∨ maxSliceCap < (σ2 b2.counter).index →
        (b2.Args σ2).1 = none ∧ (b2.Args σ2).2 = (b2, σ2)) := by
  obtain ⟨hfirst, hcounter, _⟩ := Builder.String_same_tree b b1 σ σ1 s1 h1
  have e0 := Builder.Args_of_range b σ hb0 hb1
  have e1 := Builder.Args_of_range b1 σ1 (by rw [hcounter]; exact ha0)
    (by rw [hcounter]; exact ha1)
  have e2 := Builder.Args_of_range (b1.Reset σ1).1 (b1.Reset σ1).2
    (by simp [Builder.Reset, counter.reset])
    (by simp only [Builder.Reset, counter.reset, Function.update_same]; decide)
  refine ⟨e0, by rw [e1, e0, hfirst], ?_, rfl, rfl, rfl,
    fun b2 σ2 h => ⟨Builder.Args_of_out b2 σ2 h, rfl⟩⟩
  rw [e2, e0]
  show Builder.args b1.first [] = Builder.args b.first []
  rw [hfirst]

/-- C8 (as amended) at `b := New(); b.Select(b.Arg(5))`: the counter is 0 before the render
and 1 after it, and `Args()` is `[5]` before the render, after it and after a `Reset`. -/
theorem C8_args_same_within_capacity_witness :
    ∃ b1 σ1, selectArg.String (New 0 noCounters).2 = some ("SELECT $1", b1, σ1) ∧
      0 ≤ ((New 0 noCounters).2 selectArg.counter).index ∧
      ((New 0 noCounters).2 selectArg.counter).index ≤ maxSliceCap ∧
      0 ≤ (σ1 selectArg.counter).index ∧ (σ1 selectArg.counter).index ≤ maxSliceCap ∧
      (selectArg.Args (New 0 noCounters).2).1 = some [Value.int 5] ∧
      ((selectArg.Args (New 0 noCounters).2).1 = Builder.args selectArg.first [] ∧
      (b1.Args σ1).1 = (selectArg.Args (New 0 noCounters).2).1 ∧
      ((b1.Reset σ1).1.Args (b1.Reset σ1).2).1 = (selectArg.Args (New 0 noCounters).2).1 ∧
      (selectArg.Args (New 0 noCounters).2).2 = (selectArg, (New 0 noCounters).2) ∧
      (b1.Args σ1).2 = (b1, σ1) ∧
      ((b1.Reset σ1).1.Args (b1.Reset σ1).2).2 = b1.Reset σ1 ∧
      (∀ (b2 : Builder) (σ2 : Counters),
        (σ2 b2.counter).index < 0 ∨ maxSliceCap < (σ2 b2.counter).index →
          (b2.Args σ2).1 = none ∧ (b2.Args σ2).2 = (b2, σ2))) :=
  ⟨_, _, rfl, by decide, by decide, by decide, by decide, by decide,
    C8_args_same_within_capacity selectArg _ (New 0 noCounters).2 _ "SELECT $1" rfl
      (by decide) (by decide) (by decide) (by decide)⟩

/-! ### Membership -/

/-- C9: `In(Name(h), List(b.Arg(v1), ..., b.Arg(vn)))`, rendered when `b`'s counter holds
`c`, writes `h`, ` IN ` and the tokens `$(c+1)`, ..., `$(c+n)` separated by `, `, leaves the
counter at `c + n`, and argument collection over it returns `[v1, ..., vn]` (while `c + n`
stays in the range of the counter). -/
theorem C9_in_list (b : Builder) (σ : Counters) (h : Text) (vs : List Value) (c : Int)
    (hc : (σ b.counter).index = c) (h0 : -2 ^ 63 ≤ c) (h1 : c + vs.length < 2 ^ 63) :
    ∃ out σ',
      (In (Name h) (ListOf (vs.map b.Arg))).WriteTo [] σ = some (out, σ') ∧
      Buffer.String out = h ++ " IN " ++ ", ".intercalate
        ((List.range vs.length).map fun (j : Nat) => "$" ++ FormatInt (c + 1 + (j : Int))) ∧
      (σ' b.counter).index = c + vs.length ∧
      Builder.args (In (Name h) (ListOf (vs.map b.Arg))) [] = some vs := by
  subst hc
  obtain ⟨out, hout, htext⟩ := writeExpressions_argNodes ", " b.counter vs σ h0 h1
  have hmap : vs.map b.Arg = argNodes b.counter vs := rfl
  refine ⟨[Piece.text h, Piece.text " IN "] ++ out,
    Function.update σ b.counter { index := (σ b.counter).index + vs.length }, ?_, ?_, ?_, ?_⟩
  · simp only [In, Name, ListOf, hmap, WriteTo_node, WriteTo_listNode, writeChild,
      Expresser.isNil, if_true, Option.some_bind, List.nil_append, Bool.false_eq_true, if_false]
    rw [writeExpressions_buffer, hout]
    simp only [Option.map_some', Option.some_bind, onto]
    rfl
  · rw [Buffer.String_append, htext, dollars_eq_map]
    simp [Buffer.String, Piece.toText, String.append_assoc]
  · simp
  · simp [In, Name, ListOf, hmap, Builder.args, Expresser.isNil, args_argNodes]

/-- C9 at the list of the benchmark: `In(Name("h"), List(b.Arg(1), b.Arg(2), b.Arg(3)))` on a
counter at zero. -/
theorem C9_in_list_witness :
    "h" ++ " IN " ++ ", ".intercalate
        ((List.range 3).map fun (j : Nat) => "$" ++ FormatInt (0 + 1 + (j : Int)))
      = "h IN $1, $2, $3" ∧
    ((New 0 noCounters).2 (New 0 noCounters).1.counter).index = 0 ∧ (-2 ^ 63 : Int) ≤ 0 ∧
    (0 : Int) + [Value.int 1, Value.int 2, Value.int 3].length < 2 ^ 63 ∧
    ∃ out σ',
      (In (Name "h") (ListOf ([Value.int 1, Value.int 2, Value.int 3].map
        (New 0 noCounters).1.Arg))).WriteTo [] (New 0 noCounters).2 = some (out, σ') ∧
      Buffer.String out = "h" ++ " IN " ++ ", ".intercalate
        ((List.range [Value.int 1, Value.int 2, Value.int 3].length).map
          fun (j : Nat) => "$" ++ FormatInt (0 + 1 + (j : Int))) ∧
      (σ' (New 0 noCounters).1.counter).index
        = 0 + [Value.int 1, Value.int 2, Value.int 3].length ∧
      Builder.args (In (Name "h") (ListOf ([Value.int 1, Value.int 2, Value.int 3].map
        (New 0 noCounters).1.Arg))) [] = some [Value.int 1, Value.int 2, Value.int 3] :=
  ⟨by decide, rfl, by decide, by decide,
    C9_in_list (New 0 noCounters).1 (New 0 noCounters).2 "h"
      [Value.int 1, Value.int 2, Value.int 3] 0 rfl (by decide) (by decide)⟩

/-! ### Induction over a render -/

theorem WriteTo_some (e : Expresser) (b out : Buffer) (σ σ' : Counters)
    (h : e.WriteTo b σ = some (out, σ')) :
    ∃ o, e.WriteTo [] σ = some (o, σ') ∧ out = b ++ o := by
  rw [WriteTo_buffer] at h
  cases hw : e.WriteTo [] σ with
  | none => simp [hw] at h
  | some p =>
    simp only [hw, Option.map_some', onto, Option.some.injEq, Prod.mk.injEq] at h
    exact ⟨p.1, by rw [← h.2], h.1.symm⟩

theorem writeChild_some (e : Expresser) (b out : Buffer) (σ σ' : Counters)
    (h : writeChild e b σ = some (out, σ')) :
    ∃ o, writeChild e [] σ = some (o, σ') ∧ out = b ++ o := by
  rw [writeChild_buffer] at h
  cases hw : writeChild e [] σ with
  | none => simp [hw] at h
  | some p =>
    simp only [hw, Option.map_some', onto, Option.some.injEq, Prod.mk.injEq] at h
    exact ⟨p.1, by rw [← h.2], h.1.symm⟩

theorem writeExpressions_some (body : Text) (es : List Expresser) (i : Nat) (b out : Buffer)
    (σ σ' : Counters) (h : writeExpressions body es i b σ = some (out, σ')) :
    ∃ o, writeExpressions body es i [] σ = some (o, σ') ∧ out = b ++ o := by
  rw [writeExpressions_buffer] at h
  cases hw : writeExpressions body es i [] σ with
  | none => simp [hw] at h
  | some p =>
    simp only [hw, Option.map_some', onto, Option.some.injEq, Prod.mk.injEq] at h
    exact ⟨p.1, by rw [← h.2], h.1.symm⟩

theorem WriteTo_node_some (l r : Expresser) (body : Text) (out : Buffer) (σ σ' : Counters)
    (h : (Expresser.node l r body).WriteTo [] σ = some (out, σ')) :
    ∃ o1 σ1 o2, writeChild l [] σ = some (o1, σ1) ∧ writeChild r [] σ1 = some (o2, σ') ∧
      out = o1 ++ [Piece.text body] ++ o2 := by
  rw [WriteTo_node] at h
  cases h1 : writeChild l [] σ with
  | none => simp [h1] at h
  | some p =>
    simp only [h1, Option.some_bind] at h
    obtain ⟨o2, h2, hout⟩ := writeChild_some _ _ _ _ _ h
    exact ⟨p.1, p.2, o2, rfl, h2, hout⟩

theorem WriteTo_listNode_some (l r : Expresser) (body : Text) (es : List Expresser)
    (out : Buffer) (σ σ' : Counters)
    (h : (Expresser.listNode l r body es).WriteTo [] σ = some (out, σ')) :
    ∃ o1 σ1 o2 σ2 o3, writeChild l [] σ = some (o1, σ1) ∧
      writeExpressions body es 0 [] σ1 = some (o2, σ2) ∧
      writeChild r [] σ2 = some (o3, σ') ∧ out = o1 ++ o2 ++ o3 := by
  rw [WriteTo_listNode] at h
  cases h1 : writeChild l [] σ with
  | none => simp [h1] at h
  | some p =>
    simp only [h1, Option.some_bind] at h
    cases h2 : writeExpressions body es 0 p.1 p.2 with
    | none => simp [h2] at h
    | some q =>
      simp only [h2, Option.some_bind] at h
      obtain ⟨o2, h2', hq⟩ := writeExpressions_some _ _ _ _ _ _ _ h2
      obtain ⟨o3, h3, hout⟩ := writeChild_some _ _ _ _ _ h
      exact ⟨p.1, p.2, o2, q.2, o3, rfl, h2', h3, by rw [hout, hq]⟩

theorem WriteTo_namesNode_some (l r : Expresser) (body : Text) (ns : List Text)
    (out : Buffer) (σ σ' : Counters)
    (h : (Expresser.namesNode l r body ns).WriteTo [] σ = some (out, σ')) :
    ∃ o1 σ1 o3, writeChild l [] σ = some (o1, σ1) ∧ writeChild r [] σ1 = some (o3, σ') ∧
      out = o1 ++ writeNames body ns 0 [] ++ o3 := by
  rw [WriteTo_namesNode] at h
  cases h1 : writeChild l [] σ with
  | none => simp [h1] at h
  | some p =>
    simp only [h1, Option.some_bind] at h
    obtain ⟨o3, h3, hout⟩ := writeChild_some _ _ _ _ _ h
    exact ⟨p.1, p.2, o3, rfl, h3, by rw [hout, writeNames_buffer]⟩

theorem writeExpressions_cons_some (body : Text) (e : Expresser) (es : List Expresser)
    (i : Nat) (out : Buffer) (σ σ' : Counters)
    (h : writeExpressions body (e :: es) i [] σ = some (out, σ')) :
    ∃ o1 σ1 o2, e.WriteTo [] σ = some (o1, σ1) ∧
      writeExpressions body es (i + 1) [] σ1 = some (o2, σ') ∧
      out = (if i > 0 then [Piece.text body] else []) ++ o1 ++ o2 := by
  rw [writeExpressions_cons] at h
  simp only [List.nil_append] at h
  cases h1 : e.WriteTo (if i > 0 then [Piece.text body] else []) σ with
  | none => simp [h1] at h
  | some p =>
    simp only [h1, Option.some_bind] at h
    obtain ⟨o1, h1', hp⟩ := WriteTo_some _ _ _ _ _ h1
    obtain ⟨o2, h2, hout⟩ := writeExpressions_some _ _ _ _ _ _ _ h
    refine ⟨o1, p.2, o2, h1', h2, ?_⟩
    rw [hout, hp]

theorem writeChild_cases (e : Expresser) (out : Buffer) (σ σ' : Counters)
    (h : writeChild e [] σ = some (out, σ')) :
    (e = .nil ∧ out = [] ∧ σ' = σ) ∨ (e ≠ .nil ∧ e.WriteTo [] σ = some (out, σ')) := by
  cases e with
  | nil =>
    simp only [writeChild, Expresser.isNil, if_true, Option.some.injEq, Prod.mk.injEq] at h
    exact Or.inl ⟨rfl, h.1.symm, h.2.symm⟩
  | node l r body => exact Or.inr ⟨by simp, h⟩
  | argNode l r body c a => exact Or.inr ⟨by simp, h⟩
  | listNode l r body es => exact Or.inr ⟨by simp, h⟩
  | namesNode l r body ns => exact Or.inr ⟨by simp, h⟩

theorem writeNames_induction (P : Buffer → Counters → Counters → Prop)
    (hnil : ∀ σ, P [] σ σ) (htext : ∀ s σ, P [Piece.text s] σ σ)
    (happ : ∀ o1 o2 σ σ1 σ2, P o1 σ σ1 → P o2 σ1 σ2 → P (o1 ++ o2) σ σ2)
    (body : Text) (ns : List Text) (i : Nat) (σ : Counters) :
    P (writeNames body ns i []) σ σ := by
  induction ns generalizing i with
  | nil => exact hnil σ
  | cons n ns ih =>
    simp only [writeNames, Buffer.WriteString]
    rw [writeNames_buffer]
    refine happ _ _ _ _ _ (happ _ _ _ _ _ ?_ (htext n σ)) (ih (i + 1))
    split
    · exact htext body σ
    · exact hnil σ

mutual
theorem WriteTo_induction (P : Buffer → Counters → Counters → Prop)
    (hnil : ∀ σ, P [] σ σ) (htext : ∀ s σ, P [Piece.text s] σ σ)
    (harg : ∀ c a σ,
      P [Piece.placeholder ((σ c).inc).index c a] σ (Function.update σ c (σ c).inc))
    (happ : ∀ o1 o2 σ σ1 σ2, P o1 σ σ1 → P o2 σ1 σ2 → P (o1 ++ o2) σ σ2)
    (e : Expresser) (σ : Counters) (out : Buffer) (σ' : Counters)
    (h : e.WriteTo [] σ = some (out, σ')) : P out σ σ' := by
  match e with
  | .nil => simp [Expresser.WriteTo] at h
  | .node l r body =>
    obtain ⟨o1, σ1, o2, h1, h2, hout⟩ := WriteTo_node_some _ _ _ _ _ _ h
    rw [hout]
    exact happ _ _ _ _ _ (happ _ _ _ _ _
      (writeChild_induction P hnil htext harg happ l σ o1 σ1 h1) (htext body σ1))
      (writeChild_induction P hnil htext harg happ r σ1 o2 σ' h2)
  | .argNode l r body c a =>
    rw [WriteTo_argNode] at h
    simp only [List.nil_append, Option.some.injEq, Prod.mk.injEq] at h
    rw [← h.1, ← h.2]
    exact harg c a σ
  | .listNode l r body es =>
    obtain ⟨o1, σ1, o2, σ2, o3, h1, h2, h3, hout⟩ := WriteTo_listNode_some _ _ _ _ _ _ _ h
    rw [hout]
    exact happ _ _ _ _ _ (happ _ _ _ _ _
      (writeChild_induction P hnil htext harg happ l σ o1 σ1 h1)
      (writeExpressions_induction P hnil htext harg happ body es 0 σ1 o2 σ2 h2))
      (writeChild_induction P hnil htext harg happ r σ2 o3 σ' h3)
  | .namesNode l r body ns =>
    obtain ⟨o1, σ1, o3, h1, h3, hout⟩ := WriteTo_namesNode_some _ _ _ _ _ _ _ h
    rw [hout]
    exact happ _ _ _ _ _ (happ _ _ _ _ _
      (writeChild_induction P hnil htext harg happ l σ o1 σ1 h1)
      (writeNames_induction P hnil htext happ body ns 0 σ1))
      (writeChild_induction P hnil htext harg happ r σ1 o3 σ' h3)
theorem writeChild_induction (P : Buffer → Counters → Counters → Prop)
    (hnil : ∀ σ, P [] σ σ) (htext : ∀ s σ, P [Piece.text s] σ σ)
    (harg : ∀ c a σ,
      P [Piece.placeholder ((σ c).inc).index c a] σ (Function.update σ c (σ c).inc))
    (happ : ∀ o1 o2 σ σ1 σ2, P o1 σ σ1 → P o2 σ1 σ2 → P (o1 ++ o2) σ σ2)
    (e : Expresser) (σ : Counters) (out : Buffer) (σ' : Counters)
    (h : writeChild e [] σ = some (out, σ')) : P out σ σ' := by
  match e with
  | .nil =>
    simp only [writeChild, Expresser.isNil, if_true, Option.some.injEq, Prod.mk.injEq] at h
    rw [← h.1, ← h.2]
    exact hnil σ
  | .node l r body => exact WriteTo_induction P hnil htext harg happ (.node l r body) σ out σ' h
  | .argNode l r body c a =>
    exact WriteTo_induction P hnil htext harg happ (.argNode l r body c a) σ out σ' h
  | .listNode l r body es =>
    exact WriteTo_induction P hnil htext harg happ (.listNode l r body es) σ out σ' h
  | .namesNode l r body ns =>
    exact WriteTo_induction P hnil htext harg happ (.namesNode l r body ns) σ out σ' h
theorem writeExpressions_induction (P : Buffer → Counters → Counters → Prop)
    (hnil : ∀ σ, P [] σ σ) (htext : ∀ s σ, P [Piece.text s] σ σ)
    (harg : ∀ c a σ,
      P [Piece.placeholder ((σ c).inc).index c a] σ (Function.update σ c (σ c).inc))
    (happ : ∀ o1 o2 σ σ1 σ2, P o1 σ σ1 → P o2 σ1 σ2 → P (o1 ++ o2) σ σ2)
    (body : Text) (es : List Expresser) (i : Nat) (σ : Counters) (out : Buffer)
    (σ' : Counters) (h : writeExpressions body es i [] σ = some (out, σ')) : P out σ σ' := by
  match es with
  | [] =>
    simp only [writeExpressions, Option.some.injEq, Prod.mk.injEq] at h
    rw [← h.1, ← h.2]
    exact hnil σ
  | e :: es =>
    obtain ⟨o1, σ1, o2, h1, h2, hout⟩ := writeExpressions_cons_some _ _ _ _ _ _ _ h
    rw [hout]
    refine happ _ _ _ _ _ (happ _ _ _ _ _ ?_
      (WriteTo_induction P hnil htext harg happ e σ o1 σ1 h1))
      (writeExpressions_induction P hnil htext harg happ body es (i + 1) σ1 o2 σ' h2)
    split
    · exact htext body σ
    · exact hnil σ
end

/-! ### The numbers drawn from one counter -/

theorem Buffer.placeholders_append (a b : Buffer) :
    Buffer.placeholders (a ++ b) = Buffer.placeholders a ++ Buffer.placeholders b := by
  induction a with
  | nil => simp [Buffer.placeholders]
  | cons p ps ih => cases p <;> simp [Buffer.placeholders, ih]

theorem Buffer.indicesOf_append (r : CounterRef) (a b : Buffer) :
    Buffer.indicesOf r (a ++ b) = Buffer.indicesOf r a ++ Buffer.indicesOf r b := by
  simp [Buffer.indicesOf, Buffer.placeholders_append]

theorem seq_append (c : Int) (n1 n2 : Nat) :
    (List.range (n1 + n2)).map (fun (j : Nat) => c + 1 + (j : Int)) =
      (List.range n1).map (fun (j : Nat) => c + 1 + (j : Int)) ++
        (List.range n2).map (fun (j : Nat) => c + (n1 : Int) + 1 + (j : Int)) := by
  rw [List.range_add, List.map_append, List.map_map]
  congr 1
  apply List.map_congr_left
  intro j _
  simp only [Function.comp, Nat.cast_add]
  ring

theorem drawsFrom_nil (r : CounterRef) (σ : Counters) : drawsFrom r [] σ σ := by
  refine ⟨fun _ => rfl, fun _ _ => ?_⟩
  simp [Buffer.indicesOf, Buffer.placeholders]

theorem drawsFrom_text (r : CounterRef) (s : Text) (σ : Counters) :
    drawsFrom r [Piece.text s] σ σ := by
  refine ⟨fun _ => rfl, fun _ _ => ?_⟩
  simp [Buffer.indicesOf, Buffer.placeholders]

theorem drawsFrom_arg (r c : CounterRef) (a : Value) (σ : Counters) :
    drawsFrom r [Piece.placeholder ((σ c).inc).index c a] σ
      (Function.update σ c (σ c).inc) := by
  by_cases hc : c = r
  · subst hc
    refine ⟨fun h => ?_, fun h0 h1 => ?_⟩
    · simp [Buffer.indicesOf, Buffer.placeholders] at h
    · simp only [Buffer.indicesOf, Buffer.placeholders, decide_True, List.filter_cons_of_pos,
        List.filter_nil, List.map_cons, List.map_nil, List.length_singleton, Nat.cast_one] at h1 ⊢
      rw [counter_inc_index _ h0 h1]
      simp [List.range_succ]
  · refine ⟨fun _ => Function.update_noteq (Ne.symm hc) _ _, fun _ _ => ?_⟩
    simp [Buffer.indicesOf, Buffer.placeholders, hc, Function.update_noteq (Ne.symm hc)]

theorem drawsFrom_append (r : CounterRef) (o1 o2 : Buffer) (σ σ1 σ2 : Counters)
    (h1 : drawsFrom r o1 σ σ1) (h2 : drawsFrom r o2 σ1 σ2) : drawsFrom r (o1 ++ o2) σ σ2 := by
  refine ⟨fun h => ?_, fun h0 hlt => ?_⟩
  · rw [Buffer.indicesOf_append, List.append_eq_nil] at h
    rw [h2.1 h.2, h1.1 h.1]
  · rw [Buffer.indicesOf_append, List.length_append, Nat.cast_add] at hlt
    obtain ⟨e1, s1⟩ := h1.2 h0 (by omega)
    obtain ⟨e2, s2⟩ := h2.2 (by omega) (by omega)
    refine ⟨?_, ?_⟩
    · rw [e2, e1, Buffer.indicesOf_append, List.length_append, Nat.cast_add]
      ring
    · rw [Buffer.indicesOf_append, List.length_append, seq_append, ← s1, ← e1, ← s2]

theorem WriteTo_drawsFrom (r : CounterRef) (e : Expresser) (σ σ' : Counters) (out : Buffer)
    (h : e.WriteTo [] σ = some (out, σ')) : drawsFrom r out σ σ' :=
  WriteTo_induction (drawsFrom r) (drawsFrom_nil r) (drawsFrom_text r)
    (fun c a σ => drawsFrom_arg r c a σ) (drawsFrom_append r) e σ out σ' h

theorem WriteTo_first_index (r : CounterRef) (e : Expresser) (σ σ' : Counters) (out : Buffer)
    (h : e.WriteTo [] σ = some (out, σ')) :
    ∀ k, (Buffer.indicesOf r out).head? = some k → k = ((σ r).inc).index := by
  refine (WriteTo_induction
    (fun out σ σ' => (Buffer.indicesOf r out = [] → σ' r = σ r) ∧
      ∀ k, (Buffer.indicesOf r out).head? = some k → k = ((σ r).inc).index)
    ?_ ?_ ?_ ?_ e σ out σ' h).2
  · intro σ
    exact ⟨fun _ => rfl, fun k hk => by simp [Buffer.indicesOf, Buffer.placeholders] at hk⟩
  · intro s σ
    exact ⟨fun _ => rfl, fun k hk => by simp [Buffer.indicesOf, Buffer.placeholders] at hk⟩
  · intro c a σ
    by_cases hc : c = r
    · subst hc
      refine ⟨fun h => ?_, fun k hk => ?_⟩
      · simp [Buffer.indicesOf, Buffer.placeholders] at h
      · simp [Buffer.indicesOf, Buffer.placeholders] at hk
        exact hk.symm
    · refine ⟨fun _ => Function.update_noteq (Ne.symm hc) _ _, fun k hk => ?_⟩
      simp [Buffer.indicesOf, Buffer.placeholders, hc] at hk
  · intro o1 o2 σ σ1 σ2 h1 h2
    refine ⟨fun h => ?_, fun k hk => ?_⟩
    · rw [Buffer.indicesOf_append, List.append_eq_nil] at h
      rw [h2.1 h.2, h1.1 h.1]
    · rw [Buffer.indicesOf_append] at hk
      cases ho : Buffer.indicesOf r o1 with
      | nil =>
        rw [ho, List.nil_append] at hk
        rw [← h1.1 ho]
        exact h2.2 k hk
      | cons x xs =>
        rw [ho, List.cons_append, List.head?_cons] at hk
        exact h1.2 k (by rw [ho, List.head?_cons]; exact hk)

/-! ### Trees whose placeholders come from one builder -/

theorem writeNames_placeholders (body : Text) (ns : List Text) (i : Nat) :
    Buffer.placeholders (writeNames body ns i []) = [] := by
  induction ns generalizing i with
  | nil => simp [writeNames, Buffer.placeholders]
  | cons n ns ih =>
    simp only [writeNames, Buffer.WriteString]
    rw [writeNames_buffer, Buffer.placeholders_append, ih]
    split <;> simp [Buffer.placeholders]

mutual
theorem WriteTo_argsFrom (r : CounterRef) (e : Expresser) (σ σ' : Counters) (out : Buffer)
    (ha : e.argsFrom r = true) (h : e.WriteTo [] σ = some (out, σ')) :
    ∀ t ∈ Buffer.placeholders out, t.counter = r := by
  match e with
  | .nil => simp [Expresser.WriteTo] at h
  | .node l rt body =>
    obtain ⟨o1, σ1, o2, h1, h2, hout⟩ := WriteTo_node_some _ _ _ _ _ _ h
    simp only [Expresser.argsFrom, Bool.and_eq_true] at ha
    have i1 := writeChild_argsFrom r l σ σ1 o1 ha.1 h1
    have i2 := writeChild_argsFrom r rt σ1 σ' o2 ha.2 h2
    intro t ht
    rw [hout] at ht
    simp only [Buffer.placeholders_append, Buffer.placeholders, List.append_nil,
      List.mem_append] at ht
    rcases ht with ht | ht
    · exact i1 t ht
    · exact i2 t ht
  | .argNode l rt body c a =>
    rw [WriteTo_argNode] at h
    simp only [List.nil_append, Option.some.injEq, Prod.mk.injEq] at h
    simp only [Expresser.argsFrom, Bool.and_eq_true, decide_eq_true_eq] at ha
    intro t ht
    rw [← h.1] at ht
    simp only [Buffer.placeholders, List.mem_singleton] at ht
    rw [ht]
    exact ha.1.1
  | .listNode l rt body es =>
    obtain ⟨o1, σ1, o2, σ2, o3, h1, h2, h3, hout⟩ := WriteTo_listNode_some _ _ _ _ _ _ _ h
    simp only [Expresser.argsFrom, Bool.and_eq_true] at ha
    have i1 := writeChild_argsFrom r l σ σ1 o1 ha.1.1 h1
    have i2 := writeExpressions_argsFrom r body es 0 σ1 σ2 o2 ha.2 h2
    have i3 := writeChild_argsFrom r rt σ2 σ' o3 ha.1.2 h3
    intro t ht
    rw [hout] at ht
    simp only [Buffer.placeholders_append, List.mem_append] at ht
    rcases ht with (ht | ht) | ht
    · exact i1 t ht
    · exact i2 t ht
    · exact i3 t ht
  | .namesNode l rt body ns =>
    obtain ⟨o1, σ1, o3, h1, h3, hout⟩ := WriteTo_namesNode_some _ _ _ _ _ _ _ h
    simp only [Expresser.argsFrom, Bool.and_eq_true] at ha
    have i1 := writeChild_argsFrom r l σ σ1 o1 ha.1 h1
    have i3 := writeChild_argsFrom r rt σ1 σ' o3 ha.2 h3
    intro t ht
    rw [hout] at ht
    simp only [Buffer.placeholders_append, writeNames_placeholders, List.append_nil,
      List.mem_append] at ht
    rcases ht with ht | ht
    · exact i1 t ht
    · exact i3 t ht
theorem writeChild_argsFrom (r : CounterRef) (e : Expresser) (σ σ' : Counters) (out : Buffer)
    (ha : e.argsFrom r = true) (h : writeChild e [] σ = some (out, σ')) :
    ∀ t ∈ Buffer.placeholders out, t.counter = r := by
  match e with
  | .nil =>
    simp only [writeChild, Expresser.isNil, if_true, Option.some.injEq, Prod.mk.injEq] at h
    rw [← h.1]
    simp [Buffer.placeholders]
  | .node l rt body => exact WriteTo_argsFrom r (.node l rt body) σ σ' out ha h
  | .argNode l rt body c a => exact WriteTo_argsFrom r (.argNode l rt body c a) σ σ' out ha h
  | .listNode l rt body es => exact WriteTo_argsFrom r (.listNode l rt body es) σ σ' out ha h
  | .namesNode l rt body ns => exact WriteTo_argsFrom r (.namesNode l rt body ns) σ σ' out ha h
theorem writeExpressions_argsFrom (r : CounterRef) (body : Text) (es : List Expresser)
    (i : Nat) (σ σ' : Counters) (out : Buffer) (ha : allArgsFrom r es = true)
    (h : writeExpressions body es i [] σ = some (out, σ')) :
    ∀ t ∈ Buffer.placeholders out, t.counter = r := by
  match es with
  | [] =>
    simp only [writeExpressions, Option.some.injEq, Prod.mk.injEq] at h
    rw [← h.1]
    simp [Buffer.placeholders]
  | e :: es =>
    obtain ⟨o1, σ1, o2, h1, h2, hout⟩ := writeExpressions_cons_some _ _ _ _ _ _ _ h
    simp only [allArgsFrom, Bool.and_eq_true] at ha
    have i1 := WriteTo_argsFrom r e σ σ1 o1 ha.1 h1
    have i2 := writeExpressions_argsFrom r body es (i + 1) σ1 σ' o2 ha.2 h2
    intro t ht
    rw [hout] at ht
    simp only [Buffer.placeholders_append, List.mem_append] at ht
    rcases ht with (ht | ht) | ht
    · split at ht <;> simp [Buffer.placeholders] at ht
    · exact i1 t ht
    · exact i2 t ht
end

theorem indicesOf_of_argsFrom (r : CounterRef) (out : Buffer)
    (h : ∀ t ∈ Buffer.placeholders out, t.counter = r) :
    Buffer.indicesOf r out = (Buffer.placeholders out).map Token.index := by
  unfold Buffer.indicesOf
  rw [List.filter_eq_self.mpr]
  intro t ht
  simp [h t ht]

theorem indicesOf_of_ne (r r' : CounterRef) (out : Buffer) (hne : r' ≠ r)
    (h : ∀ t ∈ Buffer.placeholders out, t.counter = r) :
    Buffer.indicesOf r' out = [] := by
  unfold Buffer.indicesOf
  rw [List.filter_eq_nil_iff.mpr]
  · rfl
  · intro t ht
    simp [h t ht, Ne.symm hne]

/-! ### Reset and a second render -/

theorem Builder.String_fresh (b b1 : Builder) (σ σ1 : Counters) (s1 : Text)
    (hbuf : b.buffer = []) (h1 : b.String σ = some (s1, b1, σ1)) :
    ∃ buf, b.first.WriteTo [] σ = some (buf, σ1) ∧ b1 = { b with buffer := buf } ∧
      s1 = TrimSpace (Buffer.String buf) := by
  simp only [Builder.String, hbuf, Buffer.Len_nil, if_true] at h1
  cases hw : b.first.WriteTo [] σ with
  | none => simp [hw] at h1
  | some p =>
    simp only [hw, Option.some.injEq, Prod.mk.injEq] at h1
    exact ⟨p.1, by rw [← h1.2.2], h1.2.1.symm, h1.1.symm⟩

/-- C6: on a builder that has not been rendered (empty cache, counter at zero) and whose
tree has only placeholders made on the builder's own counter, `String(); Reset(); String()`
returns the same text the second time as the first, leaving the same cache and counters,
and the first placeholder token written, if there is one, is `$1`. -/
theorem C6_reset_restarts_numbering (b b1 : Builder) (σ σ1 : Counters) (s1 : Text)
    (hbuf : b.buffer = []) (hzero : σ b.counter = { index := 0 })
    (hargs : b.first.argsFrom b.counter = true) (h1 : b.String σ = some (s1, b1, σ1)) :
    (b1.Reset σ1).1.String (b1.Reset σ1).2 = some (s1, b1, σ1) ∧
    ∀ t, (Buffer.placeholders b1.buffer).head? = some t →
      t.index = 1 ∧ Piece.toText (.placeholder t.index t.counter t.arg) = "$1" := by
  obtain ⟨buf, hw, hb1, hs⟩ := Builder.String_fresh b b1 σ σ1 s1 hbuf h1
  have hall := WriteTo_argsFrom b.counter b.first σ σ1 buf hargs hw
  have hreset1 : (b1.Reset σ1).1 = b := by
    rw [hb1]
    simp only [Builder.Reset]
    cases b
    simp only at hbuf
    simp [hbuf]
  have hreset2 : (b1.Reset σ1).2 = σ := by
    rw [hb1]
    simp only [Builder.Reset, counter.reset]
    funext r
    by_cases hr : r = b.counter
    · rw [hr, Function.update_same, hzero]
    · rw [Function.update_noteq hr]
      exact (WriteTo_drawsFrom r b.first σ σ1 buf hw).1
        (indicesOf_of_ne b.counter r buf hr hall)
  refine ⟨by rw [hreset1, hreset2, h1], ?_⟩
  intro t ht
  have hidx : (Buffer.indicesOf b.counter buf).head? = some t.index := by
    rw [indicesOf_of_argsFrom b.counter buf hall, List.head?_map]
    rw [hb1] at ht
    simp only at ht
    rw [ht]
    rfl
  have := WriteTo_first_index b.counter b.first σ σ1 buf hw t.index hidx
  rw [hzero] at this
  have h1' : t.index = 1 := by rw [this]; decide
  exact ⟨h1', by rw [h1']; rfl⟩

set_option maxRecDepth 100000 in
/-- C6 at the statement of `BenchmarkBuilder_Select_simple`: the render, then `Reset`, then
the render again give the same text, numbered from `$1`. -/
theorem C6_reset_restarts_numbering_witness :
    selectSimple.buffer = [] ∧
    (New 0 noCounters).2 selectSimple.counter = { index := 0 } ∧
    selectSimple.first.argsFrom selectSimple.counter = true ∧
    ∃ b1 σ1, selectSimple.String (New 0 noCounters).2 =
        some ("SELECT id FROM tickets WHERE  (subdomain_id = $1 AND  (state = $2 OR state = $3) )",
          b1, σ1) ∧
      ((b1.Reset σ1).1.String (b1.Reset σ1).2 =
        some ("SELECT id FROM tickets WHERE  (subdomain_id = $1 AND  (state = $2 OR state = $3) )",
          b1, σ1) ∧
      ∀ t, (Buffer.placeholders b1.buffer).head? = some t →
        t.index = 1 ∧ Piece.toText (.placeholder t.index t.counter t.arg) = "$1") :=
  ⟨rfl, rfl, by decide, _, _, rfl,
    C6_reset_restarts_numbering selectSimple _ (New 0 noCounters).2 _ _ rfl rfl (by decide) rfl⟩

/-! ### A render depends only on the counters of its placeholders -/

theorem WriteTo_node_intro (l r : Expresser) (body : Text) (o1 o2 : Buffer)
    (σ σ1 σ' : Counters) (h1 : writeChild l [] σ = some (o1, σ1))
    (h2 : writeChild r [] σ1 = some (o2, σ')) :
    (Expresser.node l r body).WriteTo [] σ = some (o1 ++ [Piece.text body] ++ o2, σ') := by
  rw [WriteTo_node, h1]
  simp only [Option.some_bind]
  rw [writeChild_buffer, h2]
  rfl

theorem WriteTo_listNode_intro (l r : Expresser) (body : Text) (es : List Expresser)
    (o1 o2 o3 : Buffer) (σ σ1 σ2 σ' : Counters) (h1 : writeChild l [] σ = some (o1, σ1))
    (h2 : writeExpressions body es 0 [] σ1 = some (o2, σ2))
    (h3 : writeChild r [] σ2 = some (o3, σ')) :
    (Expresser.listNode l r body es).WriteTo [] σ = some (o1 ++ o2 ++ o3, σ') := by
  rw [WriteTo_listNode, h1]
  simp only [Option.some_bind]
  rw [writeExpressions_buffer, h2]
  simp only [Option.map_some', Option.some_bind, onto]
  rw [writeChild_buffer, h3]
  rfl

theorem WriteTo_namesNode_intro (l r : Expresser) (body : Text) (ns : List Text)
    (o1 o3 : Buffer) (σ σ1 σ' : Counters) (h1 : writeChild l [] σ = some (o1, σ1))
    (h3 : writeChild r [] σ1 = some (o3, σ')) :
    (Expresser.namesNode l r body ns).WriteTo [] σ =
      some (o1 ++ writeNames body ns 0 [] ++ o3, σ') := by
  rw [WriteTo_namesNode, h1]
  simp only [Option.some_bind]
  rw [writeChild_buffer, h3, writeNames_buffer]
  rfl

theorem writeExpressions_cons_intro (body : Text) (e : Expresser) (es : List Expresser)
    (i : Nat) (o1 o2 : Buffer) (σ σ1 σ' : Counters) (h1 : e.WriteTo [] σ = some (o1, σ1))
    (h2 : writeExpressions body es (i + 1) [] σ1 = some (o2, σ')) :
    writeExpressions body (e :: es) i [] σ =
      some ((if i > 0 then [Piece.text body] else []) ++ o1 ++ o2, σ') := by
  rw [writeExpressions_cons, WriteTo_buffer, h1]
  simp only [Option.map_some', Option.some_bind, onto, List.nil_append]
  rw [writeExpressions_buffer, h2]
  rfl

theorem writeExpressions_append_some (body : Text) (xs ys : List Expresser) (i : Nat)
    (out : Buffer) (σ σ' : Counters)
    (h : writeExpressions body (xs ++ ys) i [] σ = some (out, σ')) :
    ∃ o1 σ1 o2, writeExpressions body xs i [] σ = some (o1, σ1) ∧
      writeExpressions body ys (i + xs.length) [] σ1 = some (o2, σ') ∧ out = o1 ++ o2 := by
  induction xs generalizing i out σ with
  | nil => exact ⟨[], σ, out, by simp [writeExpressions], by simpa using h, by simp⟩
  | cons x xs ih =>
    rw [List.cons_append] at h
    obtain ⟨o1, σ1, o2, h1, h2, hout⟩ := writeExpressions_cons_some _ _ _ _ _ _ _ h
    obtain ⟨p1, τ1, p2, g1, g2, hp⟩ := ih (i + 1) o2 σ1 h2
    refine ⟨_, τ1, p2, writeExpressions_cons_intro body x xs i o1 p1 σ σ1 τ1 h1 g1, ?_, ?_⟩
    · rw [List.length_cons]
      have : i + (xs.length + 1) = i + 1 + xs.length := by omega
      rw [this]
      exact g2
    · rw [hout, hp]
      simp

mutual
theorem WriteTo_agree (r : CounterRef) (e : Expresser) (σ σ' τ : Counters) (out : Buffer)
    (ha : e.argsFrom r = true) (hσ : τ r = σ r) (h : e.WriteTo [] σ = some (out, σ')) :
    ∃ τ', e.WriteTo [] τ = some (out, τ') ∧ τ' r = σ' r := by
  match e with
  | .nil => simp [Expresser.WriteTo] at h
  | .node l rt body =>
    obtain ⟨o1, σ1, o2, h1, h2, hout⟩ := WriteTo_node_some _ _ _ _ _ _ h
    simp only [Expresser.argsFrom, Bool.and_eq_true] at ha
    obtain ⟨τ1, g1, e1⟩ := writeChild_agree r l σ σ1 τ o1 ha.1 hσ h1
    obtain ⟨τ2, g2, e2⟩ := writeChild_agree r rt σ1 σ' τ1 o2 ha.2 e1 h2
    exact ⟨τ2, by rw [hout]; exact WriteTo_node_intro _ _ _ _ _ _ _ _ g1 g2, e2⟩
  | .argNode l rt body c a =>
    rw [WriteTo_argNode] at h
    simp only [List.nil_append, Option.some.injEq, Prod.mk.injEq] at h
    simp only [Expresser.argsFrom, Bool.and_eq_true, decide_eq_true_eq] at ha
    have hc : c = r := ha.1.1
    subst hc
    refine ⟨Function.update τ c (τ c).inc, ?_, ?_⟩
    · rw [WriteTo_argNode, hσ, ← h.1]
      rfl
    · rw [← h.2, Function.update_same, Function.update_same, hσ]
  | .listNode l rt body es =>
    obtain ⟨o1, σ1, o2, σ2, o3, h1, h2, h3, hout⟩ := WriteTo_listNode_some _ _ _ _ _ _ _ h
    simp only [Expresser.argsFrom, Bool.and_eq_true] at ha
    obtain ⟨τ1, g1, e1⟩ := writeChild_agree r l σ σ1 τ o1 ha.1.1 hσ h1
    obtain ⟨τ2, g2, e2⟩ := writeExpressions_agree r body es 0 σ1 σ2 τ1 o2 ha.2 e1 h2
    obtain ⟨τ3, g3, e3⟩ := writeChild_agree r rt σ2 σ' τ2 o3 ha.1.2 e2 h3
    exact ⟨τ3, by rw [hout]; exact WriteTo_listNode_intro _ _ _ _ _ _ _ _ _ _ _ g1 g2 g3, e3⟩
  | .namesNode l rt body ns =>
    obtain ⟨o1, σ1, o3, h1, h3, hout⟩ := WriteTo_namesNode_some _ _ _ _ _ _ _ h
    simp only [Expresser.argsFrom, Bool.and_eq_true] at ha
    obtain ⟨τ1, g1, e1⟩ := writeChild_agree r l σ σ1 τ o1 ha.1 hσ h1
    obtain ⟨τ3, g3, e3⟩ := writeChild_agree r rt σ1 σ' τ1 o3 ha.2 e1 h3
    exact ⟨τ3, by rw [hout]; exact WriteTo_namesNode_intro _ _ _ _ _ _ _ _ _ g1 g3, e3⟩
theorem writeChild_agree (r : CounterRef) (e : Expresser) (σ σ' τ : Counters) (out : Buffer)
    (ha : e.argsFrom r = true) (hσ : τ r = σ r) (h : writeChild e [] σ = some (out, σ')) :
    ∃ τ', writeChild e [] τ = some (out, τ') ∧ τ' r = σ' r := by
  match e with
  | .nil =>
    simp only [writeChild, Expresser.isNil, if_true, Option.some.injEq, Prod.mk.injEq] at h
    exact ⟨τ, by rw [← h.1]; rfl, by rw [← h.2]; exact hσ⟩
  | .node l rt body => exact WriteTo_agree r (.node l rt body) σ σ' τ out ha hσ h
  | .argNode l rt body c a => exact WriteTo_agree r (.argNode l rt body c a) σ σ' τ out ha hσ h
  | .listNode l rt body es => exact WriteTo_agree r (.listNode l rt body es) σ σ' τ out ha hσ h
  | .namesNode l rt body ns =>
    exact WriteTo_agree r (.namesNode l rt body ns) σ σ' τ out ha hσ h
theorem writeExpressions_agree (r : CounterRef) (body : Text) (es : List Expresser) (i : Nat)
    (σ σ' τ : Counters) (out : Buffer) (ha : allArgsFrom r es = true) (hσ : τ r = σ r)
    (h : writeExpressions body es i [] σ = some (out, σ')) :
    ∃ τ', writeExpressions body es i [] τ = some (out, τ') ∧ τ' r = σ' r := by
  match es with
  | [] =>
    simp only [writeExpressions, Option.some.injEq, Prod.mk.injEq] at h
    exact ⟨τ, by rw [← h.1]; rfl, by rw [← h.2]; exact hσ⟩
  | e :: es =>
    obtain ⟨o1, σ1, o2, h1, h2, hout⟩ := writeExpressions_cons_some _ _ _ _ _ _ _ h
    simp only [allArgsFrom, Bool.and_eq_true] at ha
    obtain ⟨τ1, g1, e1⟩ := WriteTo_agree r e σ σ1 τ o1 ha.1 hσ h1
    obtain ⟨τ2, g2, e2⟩ := writeExpressions_agree r body es (i + 1) σ1 σ' τ1 o2 ha.2 e1 h2
    exact ⟨τ2, by rw [hout]; exact writeExpressions_cons_intro _ _ _ _ _ _ _ _ _ g1 g2, e2⟩
end

/-! ### A subquery from another builder -/

theorem writeChild_drawsFrom (r : CounterRef) (e : Expresser) (σ σ' : Counters) (out : Buffer)
    (h : writeChild e [] σ = some (out, σ')) : drawsFrom r out σ σ' :=
  writeChild_induction (drawsFrom r) (drawsFrom_nil r) (drawsFrom_text r)
    (fun c a σ => drawsFrom_arg r c a σ) (drawsFrom_append r) e σ out σ' h

theorem writeExpressions_drawsFrom (r : CounterRef) (body : Text) (es : List Expresser)
    (i : Nat) (σ σ' : Counters) (out : Buffer)
    (h : writeExpressions body es i [] σ = some (out, σ')) : drawsFrom r out σ σ' :=
  writeExpressions_induction (drawsFrom r) (drawsFrom_nil r) (drawsFrom_text r)
    (fun c a σ => drawsFrom_arg r c a σ) (drawsFrom_append r) body es i σ out σ' h

theorem filter_counter_of_other (r r' : CounterRef) (ts : List Token) (hne : r' ≠ r)
    (h : ∀ t ∈ ts, t.counter = r) : ts.filter (fun t => t.counter = r') = [] := by
  rw [List.filter_eq_nil_iff]
  intro t ht
  simp [h t ht, Ne.symm hne]

theorem filter_counter_of_same (r : CounterRef) (ts : List Token)
    (h : ∀ t ∈ ts, t.counter = r) : ts.filter (fun t => t.counter = r) = ts := by
  rw [List.filter_eq_self]
  intro t ht
  simp [h t ht]

/-- The render of the outer tree, decomposed: the tokens of the select list before the
subquery, of the subquery, and of everything after it. -/
theorem WriteTo_select_subquery (inner : Expresser) (pre post : List Expresser)
    (rest : Expresser) (label : Text) (σ σ' : Counters) (buf : Buffer) (hin : inner ≠ .nil)
    (h : (Expresser.node .nil (.listNode .nil rest ", " (pre ++ [As inner label] ++ post))
      " SELECT ").WriteTo [] σ = some (buf, σ')) :
    ∃ oPre σp oI σq oPost σr oRest,
      writeExpressions ", " pre 0 [] σ = some (oPre, σp) ∧
      inner.WriteTo [] σp = some (oI, σq) ∧
      writeExpressions ", " post (0 + (pre ++ [As inner label]).length) [] σq
        = some (oPost, σr) ∧
      writeChild rest [] σr = some (oRest, σ') ∧
      Buffer.placeholders buf = Buffer.placeholders oPre ++ Buffer.placeholders oI ++
        Buffer.placeholders oPost ++ Buffer.placeholders oRest := by
  obtain ⟨o1, σ1, o2, h1, h2, hout⟩ := WriteTo_node_some _ _ _ _ _ _ h
  simp only [writeChild, Expresser.isNil, if_true, Option.some.injEq, Prod.mk.injEq,
    Bool.false_eq_true, if_false] at h1 h2
  obtain ⟨rfl, rfl⟩ := h1
  obtain ⟨l1, τ1, oL, σ2, oRest, g1, g2, g3, hl⟩ := WriteTo_listNode_some _ _ _ _ _ _ _ h2
  simp only [writeChild, Expresser.isNil, if_true, Option.some.injEq, Prod.mk.injEq] at g1
  obtain ⟨rfl, rfl⟩ := g1
  obtain ⟨oA, σa, oPost, a1, a2, ha⟩ := writeExpressions_append_some _ _ _ _ _ _ _ g2
  obtain ⟨oPre, σp, oAs, p1, p2, hp⟩ := writeExpressions_append_some _ _ _ _ _ _ _ a1
  obtain ⟨oN, σn, oE, n1, n2, hn⟩ := writeExpressions_cons_some _ _ _ _ _ _ _ p2
  simp only [writeExpressions, Option.some.injEq, Prod.mk.injEq] at n2
  obtain ⟨rfl, rfl⟩ := n2
  obtain ⟨oI, σq, oAl, q1, q2, hq⟩ := WriteTo_node_some _ _ _ _ _ _ n1
  have hq1 : inner.WriteTo [] σp = some (oI, σq) := by
    rcases writeChild_cases _ _ _ _ q1 with hnil | hw
    · exact absurd hnil.1 hin
    · exact hw.2
  have hq2 : oAl = [Piece.text label] ∧ σn = σq := by
    have : writeChild (Expresser.node .nil .nil label) [] σq
        = some ([Piece.text label], σq) := by
      simp [writeChild, Expresser.isNil, WriteTo_node]
    rw [this] at q2
    simp only [Option.some.injEq, Prod.mk.injEq] at q2
    exact ⟨q2.1.symm, q2.2.symm⟩
  obtain ⟨rfl, rfl⟩ := hq2
  refine ⟨oPre, σp, oI, σn, oPost, σ2, oRest, p1, hq1, a2, g3, ?_⟩
  rw [hout, hl, ha, hp, hn, hq]
  split <;> simp [Buffer.placeholders_append, Buffer.placeholders]

/-- C10: the outer builder's tree is `SELECT` over a list that holds `As(inner.Expr(), name)`
among expressions of the outer builder, followed by the outer builder's later clauses; the
inner tree's placeholders were made on the inner builder's counter, all others on the outer
builder's, and both counters are at zero. When the outer builder is rendered, the tokens
drawn from the inner counter are exactly the tokens the inner tree writes when rendered by
itself; they are numbered `$1..$m` and leave the inner counter at `m`; the other tokens are
drawn from the outer counter, numbered `$1..$n`, and leave the outer counter at `n`. -/
theorem C10_subquery_counters_independent (inner outer o' : Builder) (σ σ' : Counters)
    (pre post : List Expresser) (rest : Expresser) (label s : Text)
    (hne : inner.counter ≠ outer.counter)
    (hi : σ inner.counter = { index := 0 }) (ho : σ outer.counter = { index := 0 })
    (hroot : inner.rooted) (hin : inner.Expr.argsFrom inner.counter = true)
    (hpre : allArgsFrom outer.counter pre = true)
    (hpost : allArgsFrom outer.counter post = true)
    (hrest : rest.argsFrom outer.counter = true)
    (hfirst : outer.first = .node .nil
      (.listNode .nil rest ", " (pre ++ [As inner.Expr label] ++ post)) " SELECT ")
    (hbuf : outer.buffer = [])
    (h : outer.String σ = some (s, o', σ')) :
    ∃ outI σI, inner.Expr.WriteTo [] σ = some (outI, σI) ∧
      (Buffer.placeholders o'.buffer).filter (fun t => t.counter = inner.counter)
        = Buffer.placeholders outI ∧
      (∀ t ∈ Buffer.placeholders o'.buffer,
        t.counter = inner.counter ∨ t.counter = outer.counter) ∧
      ((Buffer.placeholders outI).length < 2 ^ 63 →
        Buffer.indicesOf inner.counter o'.buffer =
          (List.range (Buffer.placeholders outI).length).map (fun (j : Nat) => (j : Int) + 1) ∧
        (σ' inner.counter).index = (Buffer.placeholders outI).length) ∧
      ((Buffer.indicesOf outer.counter o'.buffer).length < 2 ^ 63 →
        Buffer.indicesOf outer.counter o'.buffer =
          (List.range (Buffer.indicesOf outer.counter o'.buffer).length).map
            (fun (j : Nat) => (j : Int) + 1) ∧
        (σ' outer.counter).index = (Buffer.indicesOf outer.counter o'.buffer).length) := by
  obtain ⟨buf, hw, ho', _⟩ := Builder.String_fresh outer o' σ σ' s hbuf h
  have hbuf' : o'.buffer = buf := by rw [ho']
  rw [hbuf']
  have hinner : inner.Expr ≠ .nil := by
    obtain ⟨right, hf | hf⟩ := hroot <;> simp [Builder.Expr, hf]
  have hw0 := hw
  rw [hfirst] at hw
  obtain ⟨oPre, σp, oI, σq, oPost, σr, oRest, p1, p2, p3, p4, htok⟩ :=
    WriteTo_select_subquery inner.Expr pre post rest label σ σ' buf hinner hw
  have tPre := writeExpressions_argsFrom outer.counter ", " pre 0 σ σp oPre hpre p1
  have tI := WriteTo_argsFrom inner.counter inner.Expr σp σq oI hin p2
  have tPost := writeExpressions_argsFrom outer.counter ", " post _ σq σr oPost hpost p3
  have tRest := writeChild_argsFrom outer.counter rest σr σ' oRest hrest p4
  have hσp : σ inner.counter = σp inner.counter :=
    ((writeExpressions_drawsFrom inner.counter ", " pre 0 σ σp oPre p1).1
      (indicesOf_of_ne outer.counter inner.counter oPre hne tPre)).symm
  obtain ⟨σI, hI, _⟩ := WriteTo_agree inner.counter inner.Expr σp σq σ oI hin hσp p2
  have hfilter : (Buffer.placeholders buf).filter (fun t => t.counter = inner.counter)
      = Buffer.placeholders oI := by
    rw [htok, List.filter_append, List.filter_append, List.filter_append,
      filter_counter_of_other outer.counter inner.counter _ hne tPre,
      filter_counter_of_other outer.counter inner.counter _ hne tPost,
      filter_counter_of_other outer.counter inner.counter _ hne tRest,
      filter_counter_of_same inner.counter _ tI]
    simp
  have hidx : Buffer.indicesOf inner.counter buf = (Buffer.placeholders oI).map Token.index := by
    rw [Buffer.indicesOf, hfilter]
  have hone : ∀ n : Nat, (List.range n).map (fun (j : Nat) => (0 : Int) + 1 + (j : Int))
      = (List.range n).map (fun (j : Nat) => (j : Int) + 1) := by
    intro n
    apply List.map_congr_left
    intro j _
    ring
  refine ⟨oI, σI, hI, hfilter, ?_, ?_, ?_⟩
  · intro t ht
    rw [htok] at ht
    simp only [List.mem_append] at ht
    rcases ht with ((ht | ht) | ht) | ht
    · exact Or.inr (tPre t ht)
    · exact Or.inl (tI t ht)
    · exact Or.inr (tPost t ht)
    · exact Or.inr (tRest t ht)
  · intro hm
    have hd := (WriteTo_drawsFrom inner.counter outer.first σ σ' buf hw0).2
    rw [hi, hidx, List.length_map] at hd
    obtain ⟨e1, e2⟩ := hd (by norm_num) (by simpa using (by exact_mod_cast hm))
    rw [hidx]
    exact ⟨by rw [e2, hone], by simpa using e1⟩
  · intro hn
    have hd := (WriteTo_drawsFrom outer.counter outer.first σ σ' buf hw0).2
    rw [ho] at hd
    obtain ⟨e1, e2⟩ := hd (by norm_num) (by simpa using (by exact_mod_cast hn))
    exact ⟨by rw [← hone]; exact e2, by simpa using e1⟩

set_option maxRecDepth 100000 in
/-- C10 at the statement of `BenchmarkBuilder_Select_subquery`, the subquery's placeholders
made by the inner builder: the subquery's tokens are `$1..$3` and leave the inner counter
at 3, the outer tokens are `$1..$4` and leave the outer counter at 4. -/
theorem C10_subquery_counters_independent_witness :
    innerQuery.counter ≠ outerQuery.counter ∧
    twoCounters innerQuery.counter = { index := 0 } ∧
    twoCounters outerQuery.counter = { index := 0 } ∧
    innerQuery.rooted ∧
    innerQuery.Expr.argsFrom innerQuery.counter = true ∧
    allArgsFrom outerQuery.counter [Name "a", Name "b"] = true ∧
    allArgsFrom outerQuery.counter [] = true ∧
    outerRest.argsFrom outerQuery.counter = true ∧
    outerQuery.first = .node .nil (.listNode .nil outerRest ", "
      ([Name "a", Name "b"] ++ [As innerQuery.Expr "subq"] ++ [])) " SELECT " ∧
    outerQuery.buffer = [] ∧
    ∃ o' σ', outerQuery.String twoCounters = some
      ("SELECT a, b,  SELECT id FROM tickets WHERE  (subdomain_id = $1 AND  (state = $2 OR state = $3) )  AS subq FROM c DISTINCT  WHERE  (f = $1 AND x = $2 AND g = $3 ORDER BY ll LIMIT $4",
        o', σ') ∧
      Buffer.indicesOf innerQuery.counter o'.buffer = [1, 2, 3] ∧
      Buffer.indicesOf outerQuery.counter o'.buffer = [1, 2, 3, 4] ∧
      ∃ outI σI, innerQuery.Expr.WriteTo [] twoCounters = some (outI, σI) ∧
        (Buffer.placeholders o'.buffer).filter (fun t => t.counter = innerQuery.counter)
          = Buffer.placeholders outI ∧
        (∀ t ∈ Buffer.placeholders o'.buffer,
          t.counter = innerQuery.counter ∨ t.counter = outerQuery.counter) ∧
        ((Buffer.placeholders outI).length < 2 ^ 63 →
          Buffer.indicesOf innerQuery.counter o'.buffer =
            (List.range (Buffer.placeholders outI).length).map
              (fun (j : Nat) => (j : Int) + 1) ∧
          (σ' innerQuery.counter).index = (Buffer.placeholders outI).length) ∧
        ((Buffer.indicesOf outerQuery.counter o'.buffer).length < 2 ^ 63 →
          Buffer.indicesOf outerQuery.counter o'.buffer =
            (List.range (Buffer.indicesOf outerQuery.counter o'.buffer).length).map
              (fun (j : Nat) => (j : Int) + 1) ∧
          (σ' outerQuery.counter).index
            = (Buffer.indicesOf outerQuery.counter o'.buffer).length) :=
  ⟨by decide, rfl, rfl, ⟨_, Or.inl rfl⟩, by decide, by decide, by decide, by decide, rfl, rfl,
    _, _, rfl, by decide, by decide,
    C10_subquery_counters_independent innerQuery outerQuery _ twoCounters _
      [Name "a", Name "b"] [] outerRest "subq" _ (by decide) rfl rfl ⟨_, Or.inl rfl⟩
      (by decide) (by decide) (by decide) (by decide) rfl rfl rfl⟩

/-! ### The empty list node -/

/-- C11: a list node with no elements writes what its left wrapper writes, immediately
followed by what its right wrapper writes (no separator, no placeholder of its own), and
collects what a text node with the same wrappers collects; `And()` writes ` (` and `) `,
the text ` () `, with no placeholder, leaves the counters alone and collects no value. -/
theorem C11_empty_list_node (l r : Expresser) (body : Text) (σ : Counters)
    (acc : List Value) :
    (Expresser.listNode l r body []).WriteTo [] σ =
      ((writeChild l [] σ).bind fun p =>
        (writeChild r [] p.2).map fun q => (p.1 ++ q.1, q.2)) ∧
    Builder.args (.listNode l r body []) acc = Builder.args (.node l r body) acc ∧
    (And []).WriteTo [] σ = some ([Piece.text " (", Piece.text ") "], σ) ∧
    Buffer.String [Piece.text " (", Piece.text ") "] = " () " ∧
    Buffer.placeholders [Piece.text " (", Piece.text ") "] = [] ∧
    Builder.args (And []) acc = some acc := by
  refine ⟨?_, ?_, ?_, by decide, rfl, ?_⟩
  · rw [WriteTo_listNode]
    cases h1 : writeChild l [] σ with
    | none => simp
    | some p =>
      simp only [Option.some_bind, writeExpressions]
      rw [writeChild_buffer]
      cases h2 : writeChild r [] p.2 <;> simp [onto]
  · simp only [Builder.args, argsExpressions]
  · simp [And, WriteTo_listNode, writeChild, Expresser.isNil, WriteTo_node, writeExpressions]
  · simp [And, Builder.args, Expresser.isNil, argsExpressions]

/-! ### The counter, call after call -/

theorem counter.nthGet_eq (k : Nat) (c : counter) (h0 : -2 ^ 63 ≤ c.index)
    (h1 : c.index + (k + 1 : Nat) < 2 ^ 63) :
    c.nthGet k = (c.index + (k + 1 : Nat), { index := c.index + (k + 1 : Nat) }) := by
  induction k generalizing c with
  | zero =>
    have hinc := counter_inc_index c h0 (by simpa using h1)
    simp [counter.nthGet, counter.get, hinc]
  | succ k ih =>
    have hlt : c.index + 1 < 2 ^ 63 := by push_cast at h1; omega
    have hinc := counter_inc_index c h0 hlt
    rw [counter.nthGet]
    simp only [counter.get, hinc]
    rw [ih { index := c.index + 1 } (by show -2 ^ 63 ≤ c.index + 1; omega)
      (by show c.index + 1 + ((k + 1 : Nat) : Int) < 2 ^ 63; push_cast at h1 ⊢; omega)]
    simp only [Prod.mk.injEq, counter.mk.injEq]
    push_cast
    constructor <;> ring

/-- C12: `get` returns the value after the increment: on a counter that is new (made by
`New`) or has just been reset, the `k`-th consecutive call returns `k`, for every
`1 ≤ k < 2^63`, the first call returning 1; `reset` stores zero whatever was stored. -/
theorem C12_counter_get (c : counter) (r : CounterRef) (σ : Counters) (k : Nat)
    (h1 : 1 ≤ k) (h2 : k < 2 ^ 63) :
    (c.reset).index = 0 ∧
    ((c.reset).nthGet (k - 1)).1 = k ∧
    (((New r σ).2 r).nthGet (k - 1)).1 = k ∧
    ((c.reset).get).1 = 1 ∧ (((New r σ).2 r).get).1 = 1 ∧
    (c.get).1 = (c.get).2.index ∧ (c.get).2 = c.inc := by
  have hk : ((k - 1 + 1 : Nat) : Int) = k := by
    have : k - 1 + 1 = k := by omega
    rw [this]
  have key : (({ index := 0 } : counter).nthGet (k - 1)).1 = k := by
    rw [counter.nthGet_eq (k - 1) { index := 0 } (by norm_num)
      (by rw [hk]; simp only [zero_add]; exact_mod_cast h2)]
    simp only [zero_add]
    exact hk
  have hnew : (New r σ).2 r = { index := 0 } := by simp [New]
  refine ⟨rfl, key, by rw [hnew]; exact key, by rfl, by rw [hnew]; rfl, rfl, rfl⟩

/-- C12 at the third call after a reset of a counter that held 41. -/
theorem C12_counter_get_witness :
    1 ≤ 3 ∧ 3 < 2 ^ 63 ∧
    ((({ index := 41 } : counter).reset).index = 0 ∧
    ((({ index := 41 } : counter).reset).nthGet (3 - 1)).1 = (3 : Nat) ∧
    (((New 0 noCounters).2 0).nthGet (3 - 1)).1 = (3 : Nat) ∧
    ((({ index := 41 } : counter).reset).get).1 = 1 ∧ (((New 0 noCounters).2 0).get).1 = 1 ∧
    (({ index := 41 } : counter).get).1 = (({ index := 41 } : counter).get).2.index ∧
    (({ index := 41 } : counter).get).2 = ({ index := 41 } : counter).inc) :=
  ⟨by decide, by decide, C12_counter_get { index := 41 } 0 noCounters 3 (by decide) (by decide)⟩

/-! ### Clauses after a placeholder, name lists, the cursor -/

/-- C13 (fails on the code): for `New().Select(Name("*")).OrderBy("l", "l").Limit(7).Offset(8)`
the raw text rendered from the root is ` SELECT * ORDER BY ll LIMIT $1` and `String()` is
`SELECT * ORDER BY ll LIMIT $1`: the keyword ` OFFSET ` of the last clause is not in it,
because `Offset` hangs its subtree under the `argNode` of `Limit`, whose `WriteTo` writes
no child. -/
theorem C13_offset_keyword_not_rendered :
    (orderLimitOffset.bind fun b => rawText b (New 0 noCounters).2)
      = some " SELECT * ORDER BY ll LIMIT $1" ∧
    (orderLimitOffset.bind fun b => (b.String (New 0 noCounters).2).map fun p => p.1)
      = some "SELECT * ORDER BY ll LIMIT $1" ∧
    ¬ (" OFFSET ".data <:+: " SELECT * ORDER BY ll LIMIT $1".data) ∧
    " LIMIT ".data <:+: " SELECT * ORDER BY ll LIMIT $1".data := by
  refine ⟨by decide, by decide, by decide, by decide⟩

theorem nodeAt_setRightAt (k : Nat) (e x e' : Expresser) (j : Nat)
    (h : setRightAt k e x = some e') : nodeAt (k + 1 + j) e' = nodeAt j x := by
  induction k generalizing e e' with
  | zero =>
    have hj : 0 + 1 + j = j + 1 := by omega
    rw [hj]
    cases e <;> simp only [setRightAt, Expresser.SetRight, Option.some.injEq] at h <;>
      first
      | exact absurd h (by simp)
      | (rw [← h]; simp [nodeAt, Expresser.Right])
  | succ k ih =>
    have hj : k + 1 + 1 + j = (k + 1 + j) + 1 := by omega
    rw [hj]
    cases e with
    | nil => simp [setRightAt, Expresser.Right] at h
    | node l r body =>
      simp only [setRightAt, Expresser.Right] at h
      cases hr : setRightAt k r x with
      | none => simp [hr] at h
      | some r' =>
        simp only [hr, Expresser.SetRight, Option.some.injEq] at h
        rw [← h]
        simp only [nodeAt, Expresser.Right]
        exact ih r r' hr
    | argNode l r body c a =>
      simp only [setRightAt, Expresser.Right] at h
      cases hr : setRightAt k r x with
      | none => simp [hr] at h
      | some r' =>
        simp only [hr, Expresser.SetRight, Option.some.injEq] at h
        rw [← h]
        simp only [nodeAt, Expresser.Right]
        exact ih r r' hr
    | listNode l r body es =>
      simp only [setRightAt, Expresser.Right] at h
      cases hr : setRightAt k r x with
      | none => simp [hr] at h
      | some r' =>
        simp only [hr, Expresser.SetRight, Option.some.injEq] at h
        rw [← h]
        simp only [nodeAt, Expresser.Right]
        exact ih r r' hr
    | namesNode l r body ns =>
      simp only [setRightAt, Expresser.Right] at h
      cases hr : setRightAt k r x with
      | none => simp [hr] at h
      | some r' =>
        simp only [hr, Expresser.SetRight, Option.some.injEq] at h
        rw [← h]
        simp only [nodeAt, Expresser.Right]
        exact ih r r' hr

theorem Builder.add_lastNode (b b' : Builder) (left : Expresser) (steps : Nat)
    (h : b.add left steps = some b') : b'.lastNode = nodeAt steps left := by
  unfold Builder.add at h
  cases hs : setRightAt b.last b.first left with
  | none => simp [hs] at h
  | some f =>
    simp only [hs, Option.some.injEq] at h
    rw [← h]
    exact nodeAt_setRightAt b.last b.first left f steps hs

/-- C14 (fails on the code): after `Values`, for every builder and every list of values,
the cursor is nil (`Values` passes `ln.right.Right()`, the absent right child of the closing
wrapper), so after `New().Insert().Into("user").Values(1)` the next clause operation panics;
after `Where(And(...))`, for every builder and every list of conjuncts, the cursor is the
list node itself, whose right child, the closing wrapper `) `, is present. -/
theorem C14_cursor_after_values_and_where :
    (∀ (b b' : Builder) (args : List Value), b.Values args = some b' →
      b'.lastNode = .nil) ∧
    insertValues.map (fun b => b.lastNode.isNil) = some true ∧
    (insertValues.bind fun b => b.Columns ["a"]) = none ∧
    (∀ (b b' : Builder) (es : List Expresser), b.Where (And es) = some b' →
      b'.lastNode = And es ∧ b'.lastNode.Right = some (.node .nil .nil ") ")) ∧
    whereAnd.map (fun b => b.lastNode) =
      some (And [Equal (Name "state") (.argNode .nil .nil "" 0 (.str "open"))]) ∧
    whereAnd.map (fun b => b.lastNode.Right) = some (some (.node .nil .nil ") ")) := by
  refine ⟨fun b b' args h => ?_, by decide, by rfl, fun b b' es h => ?_, by rfl, by rfl⟩
  · rw [Builder.add_lastNode b b' _ 2 h]
    rfl
  · have := Builder.add_lastNode b b' _ 1 h
    rw [this]
    exact ⟨rfl, rfl⟩

/-- C15 (fails on the code): `New().Select(Name("*")).GroupBy("i", "ii", "iii")` renders as
`SELECT * GROUP BY iiiiii`: the `namesNode` made by `GroupBy`, `OrderBy` and `Names` has no
body, so for every list of names they write the names with nothing between them, while
`Columns`, which sets the body `, `, writes them joined by `, `. -/
theorem C15_group_by_names_not_separated :
    (groupByThree.bind fun b => (b.String (New 0 noCounters).2).map fun p => p.1)
      = some "SELECT * GROUP BY iiiiii" ∧
    (∀ (ns : List Text) (σ : Counters),
      (Names ns).WriteTo [] σ = some (writeNames "" ns 0 [], σ) ∧
      Buffer.String (writeNames "" ns 0 []) = "".intercalate ns ∧
      Builder.args (Names ns) [] = some []) ∧
    (∀ (b : Builder) (ns : List Text),
      b.GroupBy ns = b.add (.node .nil (Names ns) " GROUP BY ") 1 ∧
      b.OrderBy ns = b.add (.node .nil (Names ns) " ORDER BY ") 1) ∧
    (((New 0 noCounters).1.Insert.Columns ["i", "ii", "iii"]).bind fun b =>
      (b.String (New 0 noCounters).2).map fun p => p.1) = some "INSERT  (i, ii, iii)" := by
  refine ⟨by decide, fun ns σ => ⟨?_, writeNames_text "" ns, ?_⟩, fun b ns => ⟨rfl, rfl⟩,
    by decide⟩
  · simp [Names, WriteTo_namesNode, writeChild, Expresser.isNil]
  · simp [Names, Builder.args, Expresser.isNil]

/-- C19 (fails on the code): after `Where(And(Equal(Name("state"), b.Arg("open"))))` the raw
text is ` SELECT id FROM tickets WHERE  (state = $1) `; after a further `GroupBy("state")` it
is ` SELECT id FROM tickets WHERE  (state = $1 GROUP BY state`, the closing wrapper gone.
After `Where(Equal(Name("state"), b.Arg("open")))` the raw text is
` SELECT id FROM tickets WHERE state = $1`; after a further `Limit(7)` it is
` SELECT id FROM tickets WHERE state =  LIMIT $1` and `Args()` is `[7]`. In both cases the
text before is not a prefix of the text after: the clause replaces the right child of the
cursor. -/
theorem C19_clause_overwrites_right_child :
    (whereAnd.bind fun b => rawText b (New 0 noCounters).2)
      = some " SELECT id FROM tickets WHERE  (state = $1) " ∧
    ((whereAnd.bind fun b => b.GroupBy ["state"]).bind fun b => rawText b (New 0 noCounters).2)
      = some " SELECT id FROM tickets WHERE  (state = $1 GROUP BY state" ∧
    ¬ (" SELECT id FROM tickets WHERE  (state = $1) ".data <+:
      " SELECT id FROM tickets WHERE  (state = $1 GROUP BY state".data) ∧
    (whereEqual.bind fun b => rawText b (New 0 noCounters).2)
      = some " SELECT id FROM tickets WHERE state = $1" ∧
    ((whereEqual.bind fun b => b.Limit 7).bind fun b => rawText b (New 0 noCounters).2)
      = some " SELECT id FROM tickets WHERE state =  LIMIT $1" ∧
    ¬ (" SELECT id FROM tickets WHERE state = $1".data <+:
      " SELECT id FROM tickets WHERE state =  LIMIT $1".data) ∧
    (whereEqual.bind fun b => b.Limit 7).map (fun b => (b.Args (New 0 noCounters).2).1)
      = some (some [.int 7]) := by
  refine ⟨by decide, by decide, by decide, by decide, by decide, by decide, by decide⟩

/-! ### Trimming -/

theorem TrimSpace_data (s : Text) :
    ∃ p q : List Char, (∀ c ∈ p, IsSpace c = true) ∧ (∀ c ∈ q, IsSpace c = true) ∧
      s.data = p ++ (TrimSpace s).data ++ q ∧
      (∀ c, (TrimSpace s).data.head? = some c → IsSpace c = false) ∧
      (∀ c, (TrimSpace s).data.getLast? = some c → IsSpace c = false) := by
  have hsplit : ∀ l : List Char,
      l = l.rdropWhile IsSpace ++ l.rtakeWhile IsSpace := by
    intro l
    have := List.takeWhile_append_dropWhile IsSpace l.reverse
    have h2 := congrArg List.reverse this
    simp only [List.reverse_append, List.reverse_reverse] at h2
    exact h2.symm
  refine ⟨s.data.takeWhile IsSpace, (s.data.dropWhile IsSpace).rtakeWhile IsSpace,
    fun c hc => List.mem_takeWhile_imp hc, ?_, ?_, ?_, ?_⟩
  · intro c hc
    simp only [List.rtakeWhile, List.mem_reverse] at hc
    exact List.mem_takeWhile_imp hc
  · simp only [TrimSpace]
    rw [List.append_assoc, ← hsplit, List.takeWhile_append_dropWhile]
  · intro c hc
    simp only [TrimSpace] at hc
    have hpre : (s.data.dropWhile IsSpace).rdropWhile IsSpace <+: s.data.dropWhile IsSpace :=
      List.rdropWhile_prefix IsSpace _
    obtain ⟨t, ht⟩ := hpre
    have hhead : (s.data.dropWhile IsSpace).head? = some c := by
      rw [← ht]
      cases hl : (s.data.dropWhile IsSpace).rdropWhile IsSpace with
      | nil => rw [hl] at hc; simp at hc
      | cons x xs => rw [hl] at hc; simpa using hc
    have := List.head?_dropWhile_not IsSpace s.data
    rw [hhead] at this
    simpa using this
  · intro c hc
    simp only [TrimSpace] at hc
    have hne : (s.data.dropWhile IsSpace).rdropWhile IsSpace ≠ [] := by
      intro h
      rw [h] at hc
      simp at hc
    have := List.rdropWhile_last_not IsSpace (s.data.dropWhile IsSpace) hne
    rw [List.getLast?_eq_getLast _ hne] at hc
    simp only [Option.some.injEq] at hc
    rw [hc] at this
    simpa using this

/-- C16: on a builder with an empty cache whose `String()` returns `s`, the raw text `raw`
written by rendering the root is a run of white space, then `s`, then a run of white space
(so everything between, interior spaces included, is kept as written), and `s` neither
starts nor ends with a white-space character. -/
theorem C16_string_is_trimmed_raw_text (b b' : Builder) (σ σ' : Counters) (s : Text)
    (hlen : Buffer.Len b.buffer = 0) (h : b.String σ = some (s, b', σ')) :
    ∃ raw, rawText b σ = some raw ∧ Buffer.String b'.buffer = raw ∧
      ∃ p q : List Char, (∀ c ∈ p, IsSpace c = true) ∧ (∀ c ∈ q, IsSpace c = true) ∧
        raw.data = p ++ s.data ++ q ∧
        (∀ c, s.data.head? = some c → IsSpace c = false) ∧
        (∀ c, s.data.getLast? = some c → IsSpace c = false) := by
  simp only [Builder.String, hlen, if_true] at h
  cases hw : b.first.WriteTo b.buffer σ with
  | none => simp [hw] at h
  | some pr =>
    simp only [hw, Option.some.injEq, Prod.mk.injEq] at h
    obtain ⟨hs, hb', _⟩ := h
    obtain ⟨o, ho, hout⟩ := WriteTo_some _ _ _ _ _ (show b.first.WriteTo b.buffer σ
      = some (pr.1, pr.2) from hw)
    have hempty : Buffer.String b.buffer = "" := (Buffer.Len_eq_zero_iff _).mp hlen
    have hraw : Buffer.String pr.1 = Buffer.String o := by
      rw [hout, Buffer.String_append, hempty]
      exact String.ext (by simp)
    refine ⟨Buffer.String o, by simp [rawText, ho], by rw [← hb']; exact hraw, ?_⟩
    rw [← hs, hraw]
    exact TrimSpace_data (Buffer.String o)

/-- C16 at `New().Insert().Into("user")`: the raw text ` INSERT  INTO user` loses its leading
space only; the two spaces between the keywords stay. -/
theorem C16_string_is_trimmed_raw_text_witness :
    ∃ b b' σ', insertInto = some b ∧ Buffer.Len b.buffer = 0 ∧
      b.String (New 0 noCounters).2 = some ("INSERT  INTO user", b', σ') ∧
      rawText b (New 0 noCounters).2 = some " INSERT  INTO user" ∧
      ∃ raw, rawText b (New 0 noCounters).2 = some raw ∧ Buffer.String b'.buffer = raw ∧
        ∃ p q : List Char, (∀ c ∈ p, IsSpace c = true) ∧ (∀ c ∈ q, IsSpace c = true) ∧
          raw.data = p ++ "INSERT  INTO user".data ++ q ∧
          (∀ c, "INSERT  INTO user".data.head? = some c → IsSpace c = false) ∧
          (∀ c, "INSERT  INTO user".data.getLast? = some c → IsSpace c = false) :=
  ⟨_, _, _, rfl, rfl, rfl, rfl,
    C16_string_is_trimmed_raw_text _ _ (New 0 noCounters).2 _ "INSERT  INTO user" rfl rfl⟩

/-! ### Rendering and the reference definition -/

theorem renderSpec_node (l r : Expresser) (body : Text) (σ : Counters) :
    renderSpec (.node l r body) σ =
      (renderSpecChild l σ).bind fun p =>
        (renderSpecChild r p.2).map fun q => (p.1 ++ body ++ q.1, q.2) := by
  simp only [renderSpec, renderSpecChild]
  cases h1 : (if l.isNil then some ("", σ) else renderSpec l σ) with
  | none => simp
  | some p =>
    simp only [Option.some_bind]
    cases h2 : (if r.isNil then some ("", p.2) else renderSpec r p.2) <;> simp

theorem renderSpec_listNode (l r : Expresser) (body : Text) (es : List Expresser)
    (σ : Counters) :
    renderSpec (.listNode l r body es) σ =
      (renderSpecChild l σ).bind fun p =>
        (renderSpecAll es p.2).bind fun m =>
          (renderSpecChild r m.2).map fun q => (p.1 ++ body.intercalate m.1 ++ q.1, q.2) := by
  simp only [renderSpec, renderSpecChild]
  cases h1 : (if l.isNil then some ("", σ) else renderSpec l σ) with
  | none => simp
  | some p =>
    simp only [Option.some_bind]
    cases h2 : renderSpecAll es p.2 with
    | none => simp
    | some m =>
      simp only [Option.some_bind]
      cases h3 : (if r.isNil then some ("", m.2) else renderSpec r m.2) <;> simp

theorem renderSpec_namesNode (l r : Expresser) (body : Text) (ns : List Text)
    (σ : Counters) :
    renderSpec (.namesNode l r body ns) σ =
      (renderSpecChild l σ).bind fun p =>
        (renderSpecChild r p.2).map fun q => (p.1 ++ body.intercalate ns ++ q.1, q.2) := by
  simp only [renderSpec, renderSpecChild]
  cases h1 : (if l.isNil then some ("", σ) else renderSpec l σ) with
  | none => simp
  | some p =>
    simp only [Option.some_bind]
    cases h2 : (if r.isNil then some ("", p.2) else renderSpec r p.2) <;> simp

theorem renderSpecAll_cons (e : Expresser) (es : List Expresser) (σ : Counters) :
    renderSpecAll (e :: es) σ =
      (renderSpec e σ).bind fun p =>
        (renderSpecAll es p.2).map fun m => (p.1 :: m.1, m.2) := by
  simp only [renderSpecAll]
  cases h1 : renderSpec e σ with
  | none => simp
  | some p =>
    simp only [Option.some_bind]
    cases h2 : renderSpecAll es p.2 <;> simp

theorem Buffer.String_text (s : Text) : Buffer.String [Piece.text s] = s := by
  simp [Buffer.String, Piece.toText]

theorem Buffer.String_cons_text (s : Text) (ps : Buffer) :
    Buffer.String (Piece.text s :: ps) = s ++ Buffer.String ps := rfl

mutual
theorem WriteTo_renderSpec (e : Expresser) (σ : Counters) :
    (e.WriteTo [] σ).map textOf = renderSpec e σ := by
  match e with
  | .nil => simp [Expresser.WriteTo, renderSpec]
  | .node l r body =>
    rw [WriteTo_node, renderSpec_node, ← writeChild_renderSpec l σ]
    cases h1 : writeChild l [] σ with
    | none => simp
    | some p =>
      simp only [Option.some_bind, Option.map_some', textOf]
      rw [writeChild_buffer, ← writeChild_renderSpec r p.2]
      cases h2 : writeChild r [] p.2 with
      | none => simp
      | some q =>
        simp [onto, textOf, Buffer.String_append, Buffer.String_text,
          Buffer.String_cons_text, String.append_assoc]
  | .argNode l r body c a =>
    simp [WriteTo_argNode, renderSpec, textOf, Buffer.String, Piece.toText, counter.get]
  | .listNode l r body es =>
    rw [WriteTo_listNode, renderSpec_listNode, ← writeChild_renderSpec l σ]
    cases h1 : writeChild l [] σ with
    | none => simp
    | some p =>
      simp only [Option.some_bind, Option.map_some', textOf]
      have h2 := writeExpressions_renderSpec body es 0 p.2
      rw [writeExpressions_buffer]
      cases hm : renderSpecAll es p.2 with
      | none =>
        rw [hm] at h2
        cases hw : writeExpressions body es 0 [] p.2 with
        | none => simp
        | some w => rw [hw] at h2; simp at h2
      | some m =>
        rw [hm] at h2
        cases hw : writeExpressions body es 0 [] p.2 with
        | none => rw [hw] at h2; simp at h2
        | some w =>
          rw [hw] at h2
          simp only [Option.map_some', Option.some.injEq, textOf, loopText, lt_irrefl,
            if_false, Prod.mk.injEq] at h2
          simp only [Option.map_some', Option.some_bind, onto]
          rw [writeChild_buffer, ← h2.2, ← writeChild_renderSpec r w.2]
          cases h3 : writeChild r [] w.2 with
          | none => simp
          | some q =>
            simp [onto, textOf, Buffer.String_append, h2.1, String.append_assoc]
  | .namesNode l r body ns =>
    rw [WriteTo_namesNode, renderSpec_namesNode, ← writeChild_renderSpec l σ]
    cases h1 : writeChild l [] σ with
    | none => simp
    | some p =>
      simp only [Option.some_bind, Option.map_some', textOf]
      rw [writeChild_buffer, ← writeChild_renderSpec r p.2]
      cases h2 : writeChild r [] p.2 with
      | none => simp
      | some q =>
        rw [writeNames_buffer]
        simp [onto, textOf, Buffer.String_append, writeNames_text, String.append_assoc]
theorem writeChild_renderSpec (e : Expresser) (σ : Counters) :
    (writeChild e [] σ).map textOf = renderSpecChild e σ := by
  match e with
  | .nil => simp [writeChild, renderSpecChild, Expresser.isNil, textOf, Buffer.String]
  | .node l r body =>
    simp only [writeChild, renderSpecChild, Expresser.isNil]
    exact WriteTo_renderSpec (.node l r body) σ
  | .argNode l r body c a =>
    simp only [writeChild, renderSpecChild, Expresser.isNil]
    exact WriteTo_renderSpec (.argNode l r body c a) σ
  | .listNode l r body es =>
    simp only [writeChild, renderSpecChild, Expresser.isNil]
    exact WriteTo_renderSpec (.listNode l r body es) σ
  | .namesNode l r body ns =>
    simp only [writeChild, renderSpecChild, Expresser.isNil]
    exact WriteTo_renderSpec (.namesNode l r body ns) σ
theorem writeExpressions_renderSpec (body : Text) (es : List Expresser) (i : Nat)
    (σ : Counters) :
    (writeExpressions body es i [] σ).map textOf = (renderSpecAll es σ).map (loopText body i) := by
  match es with
  | [] =>
    simp [writeExpressions, renderSpecAll, textOf, loopText, Buffer.String, prefixed,
      String.intercalate]
  | e :: es =>
    rw [writeExpressions_cons, renderSpecAll_cons, WriteTo_buffer, ← WriteTo_renderSpec e σ]
    cases h1 : e.WriteTo [] σ with
    | none => simp
    | some p =>
      simp only [Option.map_some', Option.some_bind, onto, textOf]
      have h2 := writeExpressions_renderSpec body es (i + 1) p.2
      rw [writeExpressions_buffer]
      cases hm : renderSpecAll es p.2 with
      | none =>
        rw [hm] at h2
        cases hw : writeExpressions body es (i + 1) [] p.2 with
        | none => simp
        | some w => rw [hw] at h2; simp at h2
      | some m =>
        rw [hm] at h2
        cases hw : writeExpressions body es (i + 1) [] p.2 with
        | none => rw [hw] at h2; simp at h2
        | some w =>
          rw [hw] at h2
          simp only [Option.map_some', Option.some.injEq, textOf, loopText,
            Nat.succ_pos, if_true, Prod.mk.injEq] at h2
          simp only [Option.map_some', onto, textOf, loopText, Option.some.injEq,
            Prod.mk.injEq]
          refine ⟨?_, h2.2⟩
          by_cases hi : i > 0
          · simp [hi, Buffer.String_append, Buffer.String_text, Buffer.String_cons_text,
              h2.1, prefixed, String.append_assoc]
          · simp [hi, Buffer.String_append, h2.1, intercalate_cons]
end

theorem renderSpecAll_length (es : List Expresser) (σ σ' : Counters) (ts : List Text)
    (h : renderSpecAll es σ = some (ts, σ')) : ts.length = es.length := by
  induction es generalizing σ ts with
  | nil =>
    simp only [renderSpecAll, Option.some.injEq, Prod.mk.injEq] at h
    rw [← h.1]
    rfl
  | cons e es ih =>
    rw [renderSpecAll_cons] at h
    cases h1 : renderSpec e σ with
    | none => simp [h1] at h
    | some p =>
      simp only [h1, Option.some_bind] at h
      cases h2 : renderSpecAll es p.2 with
      | none => simp [h2] at h
      | some m =>
        simp only [h2, Option.map_some', Option.some.injEq, Prod.mk.injEq] at h
        rw [← h.1, List.length_cons, List.length_cons, ih p.2 m.1 (by rw [h2, ← h.2])]

/-- C17: for every tree and every state of the counters, the text that `WriteTo` writes and
the counters it leaves are those of the reference definition `renderSpec` (and `WriteTo`
panics exactly where the reference is undefined: on a nil tree or a nil list element);
written into a buffer that is not empty, the text is appended to what the buffer holds. In
the reference a list of `n` elements has one text per element, joined with the separator
before each element but the first: `n - 1` separators, none for the empty list. -/
theorem C17_render_equals_reference (e : Expresser) (b : Buffer) (σ : Counters) :
    (e.WriteTo [] σ).map textOf = renderSpec e σ ∧
    ((e.WriteTo b σ).map textOf =
      (renderSpec e σ).map fun p => (Buffer.String b ++ p.1, p.2)) ∧
    (∀ (es : List Expresser) (ts : List Text) (σ' : Counters),
      renderSpecAll es σ = some (ts, σ') → ts.length = es.length) ∧
    (∀ (sep t : Text) (ts : List Text),
      sep.intercalate [] = "" ∧ sep.intercalate (t :: ts) = t ++ prefixed sep ts) := by
  refine ⟨WriteTo_renderSpec e σ, ?_, fun es ts σ' h => renderSpecAll_length es σ σ' ts h,
    fun sep t ts => ⟨rfl, intercalate_cons sep t ts⟩⟩
  rw [WriteTo_buffer, ← WriteTo_renderSpec e σ]
  cases e.WriteTo [] σ <;> simp [onto, textOf, Buffer.String_append]

/-! ### Placeholders and collected arguments -/

theorem args_node (l r : Expresser) (body : Text) (acc : List Value) :
    Builder.args (.node l r body) acc = (argsChild l acc).bind (argsChild r) := by
  simp only [Builder.args, argsChild]
  cases (if l.isNil then some acc else Builder.args l acc) <;> rfl

theorem args_namesNode (l r : Expresser) (body : Text) (ns : List Text) (acc : List Value) :
    Builder.args (.namesNode l r body ns) acc = (argsChild l acc).bind (argsChild r) := by
  simp only [Builder.args, argsChild]
  cases (if l.isNil then some acc else Builder.args l acc) <;> rfl

theorem args_argNode (l r : Expresser) (body : Text) (c : CounterRef) (a : Value)
    (acc : List Value) :
    Builder.args (.argNode l r body c a) acc =
      (argsChild l acc).bind fun x => argsChild r (x ++ [a]) := by
  simp only [Builder.args, argsChild]
  cases (if l.isNil then some acc else Builder.args l acc) <;> rfl

theorem args_listNode (l r : Expresser) (body : Text) (es : List Expresser)
    (acc : List Value) :
    Builder.args (.listNode l r body es) acc =
      (argsChild l acc).bind fun x => (argsExpressions es x).bind (argsChild r) := by
  simp only [Builder.args, argsChild]
  cases (if l.isNil then some acc else Builder.args l acc) with
  | none => rfl
  | some x =>
    simp only [Option.some_bind]
    cases argsExpressions es x <;> rfl

theorem argsExpressions_cons (e : Expresser) (es : List Expresser) (acc : List Value) :
    argsExpressions (e :: es) acc = (Builder.args e acc).bind (argsExpressions es) := by
  simp only [argsExpressions]
  cases Builder.args e acc <;> rfl

mutual
theorem plain_argsFrom (r : CounterRef) (e : Expresser) (h : e.plain r = true) :
    e.argsFrom r = true := by
  match e with
  | .nil => simp [Expresser.plain] at h
  | .node l rt body =>
    simp only [Expresser.plain, Bool.and_eq_true] at h
    simp only [Expresser.argsFrom, Bool.and_eq_true]
    exact ⟨plainChild_argsFrom r l h.1, plainChild_argsFrom r rt h.2⟩
  | .argNode l rt body c a =>
    simp only [Expresser.plain, Bool.and_eq_true, decide_eq_true_eq] at h
    have hl : l = .nil := by cases l <;> simp [Expresser.isNil] at h ⊢
    have hr : rt = .nil := by cases rt <;> simp [Expresser.isNil] at h ⊢
    simp [Expresser.argsFrom, hl, hr, h.2]
  | .listNode l rt body es =>
    simp only [Expresser.plain, Bool.and_eq_true] at h
    simp only [Expresser.argsFrom, Bool.and_eq_true]
    exact ⟨⟨plainChild_argsFrom r l h.1.1, plainChild_argsFrom r rt h.1.2⟩,
      allPlain_argsFrom r es h.2⟩
  | .namesNode l rt body ns =>
    simp only [Expresser.plain, Bool.and_eq_true] at h
    simp only [Expresser.argsFrom, Bool.and_eq_true]
    exact ⟨plainChild_argsFrom r l h.1, plainChild_argsFrom r rt h.2⟩
theorem plainChild_argsFrom (r : CounterRef) (e : Expresser)
    (h : (e.isNil || e.plain r) = true) : e.argsFrom r = true := by
  match e with
  | .nil => simp [Expresser.argsFrom]
  | .node l rt body =>
    exact plain_argsFrom r (.node l rt body) (by simpa [Expresser.isNil] using h)
  | .argNode l rt body c a =>
    exact plain_argsFrom r (.argNode l rt body c a) (by simpa [Expresser.isNil] using h)
  | .listNode l rt body es =>
    exact plain_argsFrom r (.listNode l rt body es) (by simpa [Expresser.isNil] using h)
  | .namesNode l rt body ns =>
    exact plain_argsFrom r (.namesNode l rt body ns) (by simpa [Expresser.isNil] using h)
theorem allPlain_argsFrom (r : CounterRef) (es : List Expresser) (h : allPlain r es = true) :
    allArgsFrom r es = true := by
  match es with
  | [] => simp [allArgsFrom]
  | e :: es =>
    simp only [allPlain, Bool.and_eq_true] at h
    simp only [allArgsFrom, Bool.and_eq_true]
    exact ⟨plain_argsFrom r e h.1, allPlain_argsFrom r es h.2⟩
end

mutual
theorem plain_tokens (r : CounterRef) (e : Expresser) (h : e.plain r = true) :
    ∃ vals, (∀ acc, Builder.args e acc = some (acc ++ vals)) ∧
      ∀ σ, ∃ out σ', e.WriteTo [] σ = some (out, σ') ∧
        (Buffer.placeholders out).map Token.arg = vals := by
  match e with
  | .nil => simp [Expresser.plain] at h
  | .node l rt body =>
    simp only [Expresser.plain, Bool.and_eq_true] at h
    obtain ⟨vl, al, wl⟩ := plainChild_tokens r l h.1
    obtain ⟨vr, ar, wr⟩ := plainChild_tokens r rt h.2
    refine ⟨vl ++ vr, fun acc => ?_, fun σ => ?_⟩
    · rw [args_node, al, Option.some_bind, ar, List.append_assoc]
    · obtain ⟨o1, σ1, h1, t1⟩ := wl σ
      obtain ⟨o2, σ2, h2, t2⟩ := wr σ1
      refine ⟨_, σ2, WriteTo_node_intro l rt body o1 o2 σ σ1 σ2 h1 h2, ?_⟩
      simp [Buffer.placeholders_append, Buffer.placeholders, t1, t2]
  | .argNode l rt body c a =>
    simp only [Expresser.plain, Bool.and_eq_true, decide_eq_true_eq] at h
    have hl : l = .nil := by cases l <;> simp [Expresser.isNil] at h ⊢
    have hr : rt = .nil := by cases rt <;> simp [Expresser.isNil] at h ⊢
    subst hl hr
    refine ⟨[a], fun acc => ?_, fun σ => ?_⟩
    · simp [args_argNode, argsChild, Expresser.isNil]
    · exact ⟨_, _, WriteTo_argNode _ _ _ _ _ _ _, by simp [Buffer.placeholders]⟩
  | .listNode l rt body es =>
    simp only [Expresser.plain, Bool.and_eq_true] at h
    obtain ⟨vl, al, wl⟩ := plainChild_tokens r l h.1.1
    obtain ⟨vm, am, wm⟩ := allPlain_tokens r es h.2
    obtain ⟨vr, ar, wr⟩ := plainChild_tokens r rt h.1.2
    refine ⟨vl ++ vm ++ vr, fun acc => ?_, fun σ => ?_⟩
    · rw [args_listNode, al, Option.some_bind, am, Option.some_bind, ar]
      simp
    · obtain ⟨o1, σ1, h1, t1⟩ := wl σ
      obtain ⟨o2, σ2, h2, t2⟩ := wm body 0 σ1
      obtain ⟨o3, σ3, h3, t3⟩ := wr σ2
      refine ⟨_, σ3, WriteTo_listNode_intro l rt body es o1 o2 o3 σ σ1 σ2 σ3 h1 h2 h3, ?_⟩
      simp [Buffer.placeholders_append, t1, t2, t3]
  | .namesNode l rt body ns =>
    simp only [Expresser.plain, Bool.and_eq_true] at h
    obtain ⟨vl, al, wl⟩ := plainChild_tokens r l h.1
    obtain ⟨vr, ar, wr⟩ := plainChild_tokens r rt h.2
    refine ⟨vl ++ vr, fun acc => ?_, fun σ => ?_⟩
    · rw [args_namesNode, al, Option.some_bind, ar, List.append_assoc]
    · obtain ⟨o1, σ1, h1, t1⟩ := wl σ
      obtain ⟨o2, σ2, h2, t2⟩ := wr σ1
      refine ⟨_, σ2, WriteTo_namesNode_intro l rt body ns o1 o2 σ σ1 σ2 h1 h2, ?_⟩
      simp [Buffer.placeholders_append, writeNames_placeholders, t1, t2]
theorem plainChild_tokens (r : CounterRef) (e : Expresser)
    (h : (e.isNil || e.plain r) = true) :
    ∃ vals, (∀ acc, argsChild e acc = some (acc ++ vals)) ∧
      ∀ σ, ∃ out σ', writeChild e [] σ = some (out, σ') ∧
        (Buffer.placeholders out).map Token.arg = vals := by
  match e with
  | .nil =>
    exact ⟨[], fun acc => by simp [argsChild, Expresser.isNil],
      fun σ => ⟨[], σ, rfl, rfl⟩⟩
  | .node l rt body =>
    exact plain_tokens r (.node l rt body) (by simpa [Expresser.isNil] using h)
  | .argNode l rt body c a =>
    exact plain_tokens r (.argNode l rt body c a) (by simpa [Expresser.isNil] using h)
  | .listNode l rt body es =>
    exact plain_tokens r (.listNode l rt body es) (by simpa [Expresser.isNil] using h)
  | .namesNode l rt body ns =>
    exact plain_tokens r (.namesNode l rt body ns) (by simpa [Expresser.isNil] using h)
theorem allPlain_tokens (r : CounterRef) (es : List Expresser) (h : allPlain r es = true) :
    ∃ vals, (∀ acc, argsExpressions es acc = some (acc ++ vals)) ∧
      ∀ (body : Text) (i : Nat) σ, ∃ out σ', writeExpressions body es i [] σ = some (out, σ') ∧
        (Buffer.placeholders out).map Token.arg = vals := by
  match es with
  | [] =>
    exact ⟨[], fun acc => by simp [argsExpressions],
      fun body i σ => ⟨[], σ, by simp [writeExpressions], rfl⟩⟩
  | e :: es =>
    simp only [allPlain, Bool.and_eq_true] at h
    obtain ⟨v1, a1, w1⟩ := plain_tokens r e h.1
    obtain ⟨v2, a2, w2⟩ := allPlain_tokens r es h.2
    refine ⟨v1 ++ v2, fun acc => ?_, fun body i σ => ?_⟩
    · rw [argsExpressions_cons, a1, Option.some_bind, a2, List.append_assoc]
    · obtain ⟨o1, σ1, h1, t1⟩ := w1 σ
      obtain ⟨o2, σ2, h2, t2⟩ := w2 body (i + 1) σ1
      refine ⟨_, σ2, writeExpressions_cons_intro body e es i o1 o2 σ σ1 σ2 h1 h2, ?_⟩
      rw [Buffer.placeholders_append, Buffer.placeholders_append, List.map_append,
        List.map_append, t1, t2]
      split <;> simp [Buffer.placeholders]
end

/-- C18: on a tree of text, name-list, list (nested to any depth) and placeholder nodes in
which no placeholder node has a child and every placeholder is on the counter `r`, argument
collection returns a list `vals` and rendering returns; the placeholder tokens written are
as many as `vals`, all drawn from `r`, the `k`-th written by the placeholder whose value is
the `k`-th of `vals`; and while `c + n` stays in the range of the counter, `c` being the
counter's value before and `n` the length of `vals`, the `k`-th token is `$(c+k)` and the
counter holds `c + n` afterwards. -/
theorem C18_tokens_match_collected_arguments (r : CounterRef) (e : Expresser) (σ : Counters)
    (h : e.plain r = true) :
    ∃ vals out σ', Builder.args e [] = some vals ∧ e.WriteTo [] σ = some (out, σ') ∧
      (Buffer.placeholders out).length = vals.length ∧
      (Buffer.placeholders out).map Token.arg = vals ∧
      (∀ t ∈ Buffer.placeholders out, t.counter = r) ∧
      (-2 ^ 63 ≤ (σ r).index → (σ r).index + vals.length < 2 ^ 63 →
        (Buffer.placeholders out).map Token.index =
          (List.range vals.length).map (fun (k : Nat) => (σ r).index + 1 + (k : Int)) ∧
        (Buffer.placeholders out).map (fun t => Piece.toText (.placeholder t.index t.counter t.arg))
          = (List.range vals.length).map
            (fun (k : Nat) => "$" ++ FormatInt ((σ r).index + 1 + (k : Int))) ∧
        (σ' r).index = (σ r).index + vals.length) := by
  obtain ⟨vals, ha, hw⟩ := plain_tokens r e h
  obtain ⟨out, σ', hout, harg⟩ := hw σ
  have hall := WriteTo_argsFrom r e σ σ' out (plain_argsFrom r e h) hout
  have hlen : (Buffer.placeholders out).length = vals.length := by
    rw [← harg, List.length_map]
  have hidx := indicesOf_of_argsFrom r out hall
  refine ⟨vals, out, σ', by simpa using ha [], hout, hlen, harg, hall, fun h0 h1 => ?_⟩
  have hd := (WriteTo_drawsFrom r e σ σ' out hout).2
  rw [hidx, List.length_map, hlen] at hd
  obtain ⟨e1, e2⟩ := hd h0 h1
  refine ⟨e2, ?_, e1⟩
  have : (Buffer.placeholders out).map
      (fun t => Piece.toText (.placeholder t.index t.counter t.arg))
      = ((Buffer.placeholders out).map Token.index).map (fun k => "$" ++ FormatInt k) := by
    rw [List.map_map]
    rfl
  rw [this, e2, List.map_map]
  rfl

/-- C18 at the tree of `BenchmarkBuilder_Select_simple` (an `Or` list inside an `And` list),
rendered with the counter at zero: three values collected, three tokens `$1`, `$2`, `$3`. -/
theorem C18_tokens_match_collected_arguments_witness :
    nestedLists.plain 0 = true ∧
    Builder.args nestedLists [] = some [.int 1, .str "open", .str "spam"] ∧
    ∃ vals out σ', Builder.args nestedLists [] = some vals ∧
      nestedLists.WriteTo [] noCounters = some (out, σ') ∧
      (Buffer.placeholders out).length = vals.length ∧
      (Buffer.placeholders out).map Token.arg = vals ∧
      (∀ t ∈ Buffer.placeholders out, t.counter = 0) ∧
      (-2 ^ 63 ≤ (noCounters 0).index → (noCounters 0).index + vals.length < 2 ^ 63 →
        (Buffer.placeholders out).map Token.index =
          (List.range vals.length).map
            (fun (k : Nat) => (noCounters 0).index + 1 + (k : Int)) ∧
        (Buffer.placeholders out).map
            (fun t => Piece.toText (.placeholder t.index t.counter t.arg))
          = (List.range vals.length).map
            (fun (k : Nat) => "$" ++ FormatInt ((noCounters 0).index + 1 + (k : Int))) ∧
        (σ' 0).index = (noCounters 0).index + vals.length) :=
  ⟨by decide, by decide, C18_tokens_match_collected_arguments 0 nestedLists noCounters (by decide)⟩

end Sqlb
